import Mathlib

/-!
Verification development for the math-modelling repository.

The repository's numerical core consists of three SOR relaxation kernels
(`relax2d` and `relax3d` in lab1-pde-modeling/solver.py, `relax` in
lab2-standing-waves/src/solver.py), a Thomas tridiagonal solver
(`thomas` in lab1-pde-modeling/solver.py), and the time-stepping driver
with source injection and boundary handling
(lab1-standing-waves/src/simulation.py, config.py).

Scalar arithmetic is modelled exactly over an arbitrary linear ordered
field: the solver kernels are generic in the scalar type (instantiated at
ℚ for concrete evaluations, and at ℝ for the simulation driver, whose
source term uses `sin`).  Grid fields are total functions from integer
index pairs/triples; the in-place updates of the Python code become
`Function.update`, and each `for` loop becomes a left fold over the list
of visited indices in the source's iteration order.  `while` loops are
modelled by a fuelled iterator together with theorems showing the fuel
always suffices (the guard is false at the returned state).
-/

namespace MathModel

abbrev Idx2 : Type := ℕ × ℕ

abbrev Idx3 : Type := ℕ × ℕ × ℕ

/-- Interior-node predicate for an `n × m` grid: both coordinates strictly
inside the boundary ring (`1 ≤ i < n-1`, `1 ≤ j < m-1`). -/
def Interior2 (n m : ℕ) (p : Idx2) : Prop :=
  1 ≤ p.1 ∧ p.1 < n - 1 ∧ 1 ≤ p.2 ∧ p.2 < m - 1

instance (n m : ℕ) : DecidablePred (Interior2 n m) := fun p => by
  unfold Interior2; infer_instance

/-- Boundary-node predicate for an `n × m` grid: some coordinate equal to
`0` or to the last index on its axis. -/
def Boundary2 (n m : ℕ) (p : Idx2) : Prop :=
  p.1 = 0 ∨ p.1 = n - 1 ∨ p.2 = 0 ∨ p.2 = m - 1

instance (n m : ℕ) : DecidablePred (Boundary2 n m) := fun p => by
  unfold Boundary2; infer_instance

/-- Column indices `j = 1 .. m-2` of row `i`, in increasing order: the inner
loop `for j in range(1, m - 1)` of the 2D solvers. -/
def row2 (m i : ℕ) : List Idx2 :=
  (List.range' 1 (m - 2)).map (fun j => (i, j))

/-- Row-major traversal of the interior nodes: the nested loops
`for i in range(1, n - 1): for j in range(1, m - 1)` of the 2D solvers. -/
def interiorIdx2 (n m : ℕ) : List Idx2 :=
  (List.range' 1 (n - 2)).flatMap (row2 m)

/-- Interior predicate for an `nx × ny × nz` grid. -/
def Interior3 (nx ny nz : ℕ) (p : Idx3) : Prop :=
  1 ≤ p.1 ∧ p.1 < nx - 1 ∧ 1 ≤ p.2.1 ∧ p.2.1 < ny - 1 ∧
    1 ≤ p.2.2 ∧ p.2.2 < nz - 1

instance (nx ny nz : ℕ) : DecidablePred (Interior3 nx ny nz) := fun p => by
  unfold Interior3; infer_instance

/-- Boundary predicate for an `nx × ny × nz` grid. -/
def Boundary3 (nx ny nz : ℕ) (p : Idx3) : Prop :=
  p.1 = 0 ∨ p.1 = nx - 1 ∨ p.2.1 = 0 ∨ p.2.1 = ny - 1 ∨
    p.2.2 = 0 ∨ p.2.2 = nz - 1

instance (nx ny nz : ℕ) : DecidablePred (Boundary3 nx ny nz) := fun p => by
  unfold Boundary3; infer_instance

/-- Depth indices `k = 1 .. nz-2` of the line `(i, j)`: the innermost loop
of `relax3d`. -/
def line3 (nz i j : ℕ) : List Idx3 :=
  (List.range' 1 (nz - 2)).map (fun k => (i, j, k))

/-- Plane slice of `relax3d`'s traversal: the two inner loops at fixed `i`. -/
def plane3 (ny nz i : ℕ) : List Idx3 :=
  (List.range' 1 (ny - 2)).flatMap (line3 nz i)

/-- Row-major traversal of the interior nodes of a 3D grid: the nested
loops `for i ... for j ... for k ...` of `relax3d`. -/
def interiorIdx3 (nx ny nz : ℕ) : List Idx3 :=
  (List.range' 1 (nx - 2)).flatMap (plane3 ny nz)

/-- Portion of the 2D row-major traversal strictly before `(i, j)`. -/
def pre2 (m i j : ℕ) : List Idx2 :=
  (List.range' 1 (i - 1)).flatMap (row2 m) ++
    (List.range' 1 (j - 1)).map (fun b => (i, b))

/-- Portion of the 2D row-major traversal strictly after `(i, j)`. -/
def post2 (n m i j : ℕ) : List Idx2 :=
  (List.range' (j + 1) (m - 2 - j)).map (fun b => (i, b)) ++
    (List.range' (i + 1) (n - 2 - i)).flatMap (row2 m)

/-- Portion of the 3D row-major traversal strictly before `(i, j, k)`. -/
def pre3 (ny nz i j k : ℕ) : List Idx3 :=
  (List.range' 1 (i - 1)).flatMap (plane3 ny nz) ++
    ((List.range' 1 (j - 1)).flatMap (line3 nz i) ++
      (List.range' 1 (k - 1)).map (fun c => (i, j, c)))

/-- Portion of the 3D row-major traversal strictly after `(i, j, k)`. -/
def post3 (nx ny nz i j k : ℕ) : List Idx3 :=
  ((List.range' (k + 1) (nz - 2 - k)).map (fun c => (i, j, c)) ++
    (List.range' (j + 1) (ny - 2 - j)).flatMap (line3 nz i)) ++
    (List.range' (i + 1) (nx - 2 - i)).flatMap (plane3 ny nz)

section SolverDefs

variable {α : Type} [LinearOrderedField α]

/-- Stencil coefficient set of the 2D solvers: neighbour multipliers
`ax, cx, ay, cy`, diagonal `b` and right-hand side `d` (named `d_rhs` in
the source), all co-indexed with the field. -/
structure Coeffs2 (α : Type) where
  ax : Idx2 → α
  cx : Idx2 → α
  ay : Idx2 → α
  cy : Idx2 → α
  b : Idx2 → α
  d : Idx2 → α

/-- Coefficient set of the 3D solver `relax3d`, with six neighbour arrays. -/
structure Coeffs3 (α : Type) where
  ax : Idx3 → α
  cx : Idx3 → α
  ay : Idx3 → α
  cy : Idx3 → α
  az : Idx3 → α
  cz : Idx3 → α
  b : Idx3 → α
  d : Idx3 → α

/-- Pre-inverted diagonal of `relax2d` (solver.py lines 44-45):
`inv_b = np.zeros_like(b); inv_b[1:-1, 1:-1] = 1.0 / b[1:-1, 1:-1]` —
the reciprocal is taken on the interior sub-block only, all other entries
stay `0`. -/
def invB2 (n m : ℕ) (b : Idx2 → α) : Idx2 → α := fun p =>
  if Interior2 n m p then 1 / b p else 0

/-- Pre-inverted diagonal of `relax3d` (solver.py lines 126-127), interior
sub-block only. -/
def invB3 (nx ny nz : ℕ) (b : Idx3 → α) : Idx3 → α := fun p =>
  if Interior3 nx ny nz p then 1 / b p else 0

/-- Pre-inverted diagonal of lab2's `relax` (solver.py line 12):
`inv_b = 1.0 / b` — the whole array is inverted, boundary included. -/
def invFull {ι : Type} (b : ι → α) : ι → α := fun p => 1 / b p

/-- Gauss-Seidel target value `t` of the 2D solvers (relax2d lines 59-61,
lab2 relax lines 20-22): `t = (ax*U[i-1,j] + cx*U[i+1,j] + ay*U[i,j-1] +
cy*U[i,j+1] - d_rhs) * inv_b`. -/
def gsT2 (C : Coeffs2 α) (inv : Idx2 → α) (U : Idx2 → α) (p : Idx2) : α :=
  (C.ax p * U (p.1 - 1, p.2) + C.cx p * U (p.1 + 1, p.2) +
   C.ay p * U (p.1, p.2 - 1) + C.cy p * U (p.1, p.2 + 1) - C.d p) * inv p

/-- Over-relaxed node value written by the 2D solvers (relax2d line 64,
lab2 relax line 26): `t * omega + U[i,j] * (1 - omega)`. -/
def newVal2 (C : Coeffs2 α) (inv : Idx2 → α) (ω : α) (U : Idx2 → α)
    (p : Idx2) : α :=
  gsT2 C inv U p * ω + U p * (1 - ω)

/-- Single in-place node update of the 2D sweeps. -/
def upd2 (C : Coeffs2 α) (inv : Idx2 → α) (ω : α) (U : Idx2 → α)
    (p : Idx2) : Idx2 → α :=
  Function.update U p (newVal2 C inv ω U p)

/-- One full interior sweep of a 2D solver: the nested loops of relax2d
lines 57-64 (and of lab2 relax lines 18-26), updating the field in place
in row-major order. -/
def sweep2 (n m : ℕ) (C : Coeffs2 α) (inv : Idx2 → α) (ω : α)
    (U : Idx2 → α) : Idx2 → α :=
  (interiorIdx2 n m).foldl (upd2 C inv ω) U

/-- Post-sweep error loop of `relax2d` (lines 66-71): maximum over interior
nodes of `|U[i,j] - U_old[i,j]|`, accumulated from `0`. -/
def errAcc2 (n m : ℕ) (Unew Uold : Idx2 → α) : α :=
  (interiorIdx2 n m).foldl (fun e p => max e |Unew p - Uold p|) 0

/-- Gauss-Seidel target of `relax3d` (lines 143-146), six neighbours. -/
def gsT3 (C : Coeffs3 α) (inv : Idx3 → α) (U : Idx3 → α) (p : Idx3) : α :=
  (C.ax p * U (p.1 - 1, p.2.1, p.2.2) + C.cx p * U (p.1 + 1, p.2.1, p.2.2) +
   C.ay p * U (p.1, p.2.1 - 1, p.2.2) + C.cy p * U (p.1, p.2.1 + 1, p.2.2) +
   C.az p * U (p.1, p.2.1, p.2.2 - 1) + C.cz p * U (p.1, p.2.1, p.2.2 + 1) -
   C.d p) * inv p

/-- Over-relaxed node value of `relax3d` (line 147):
`omega*t + (1.0 - omega)*U[i,j,k]`. -/
def newVal3 (C : Coeffs3 α) (inv : Idx3 → α) (ω : α) (U : Idx3 → α)
    (p : Idx3) : α :=
  ω * gsT3 C inv U p + (1 - ω) * U p

/-- Single in-place node update of the 3D sweep. -/
def upd3 (C : Coeffs3 α) (inv : Idx3 → α) (ω : α) (U : Idx3 → α)
    (p : Idx3) : Idx3 → α :=
  Function.update U p (newVal3 C inv ω U p)

/-- One full interior sweep of `relax3d` (lines 140-147). -/
def sweep3 (nx ny nz : ℕ) (C : Coeffs3 α) (inv : Idx3 → α) (ω : α)
    (U : Idx3 → α) : Idx3 → α :=
  (interiorIdx3 nx ny nz).foldl (upd3 C inv ω) U

/-- Post-sweep error loop of `relax3d` (lines 149-155). -/
def errAcc3 (nx ny nz : ℕ) (Unew Uold : Idx3 → α) : α :=
  (interiorIdx3 nx ny nz).foldl (fun e p => max e |Unew p - Uold p|) 0

end SolverDefs

/-- Transient convergence state of one solver invocation: the field being
relaxed, the scalar max-norm error, and the iteration counter. -/
structure RState (ι α : Type) where
  U : ι → α
  err : α
  it : ℕ

/-- Fuelled while-loop: iterates `body` while `c` holds, up to `f` steps.
Each solver run is invoked with enough fuel that the guard is provably
false at the returned state, making this a faithful model of the source's
unbounded `while`. -/
def whileLoop {σ : Type} (c : σ → Prop) [DecidablePred c] (body : σ → σ) :
    ℕ → σ → σ
  | 0, s => s
  | f + 1, s => if c s then whileLoop c body f (body s) else s

section SolverRuns

variable {α : Type} [LinearOrderedField α]

/-- Loop body of `relax2d` (lines 50-71): snapshot `U_old = U`, sweep the
interior, recompute the max-norm error against the snapshot, count the
iteration. -/
def body2 (n m : ℕ) (C : Coeffs2 α) (ω : α) (s : RState Idx2 α) :
    RState Idx2 α :=
  let Uold := s.U
  let Unew := sweep2 n m C (invB2 n m C.b) ω s.U
  ⟨Unew, errAcc2 n m Unew Uold, s.it + 1⟩

/-- Loop guard of `relax2d` (line 49):
`while err > eps and it < max_iter or it < 100` — Python precedence groups
this as `(err > eps and it < max_iter) or it < 100`, a literal
minimum-iteration floor of `100`. -/
def cond2 (ε : α) (maxIt : ℕ) (s : RState Idx2 α) : Prop :=
  (ε < s.err ∧ s.it < maxIt) ∨ s.it < 100

instance (ε : α) (maxIt : ℕ) : DecidablePred (cond2 ε maxIt) := fun s => by
  unfold cond2; infer_instance

/-- The `relax2d` solver: starts from a copy of the initial guess with
`err = 1.0`, `it = 0`, and iterates its loop body while the guard holds.
The source returns only the field `U`; the full state is kept here so that
the iteration count and final error can be stated. -/
def relax2d (n m : ℕ) (C : Coeffs2 α) (ω ε : α) (maxIt : ℕ)
    (U0 : Idx2 → α) : RState Idx2 α :=
  whileLoop (cond2 ε maxIt) (body2 n m C ω) (maxIt + 101) ⟨U0, 1, 0⟩

/-- Loop body of `relax3d` (lines 133-155). -/
def body3 (nx ny nz : ℕ) (C : Coeffs3 α) (ω : α) (s : RState Idx3 α) :
    RState Idx3 α :=
  let Uold := s.U
  let Unew := sweep3 nx ny nz C (invB3 nx ny nz C.b) ω s.U
  ⟨Unew, errAcc3 nx ny nz Unew Uold, s.it + 1⟩

/-- Loop guard of `relax3d` (line 132):
`while ((err > eps and it < max_iter) or it < min_iter)`. -/
def cond3 (ε : α) (maxIt minIt : ℕ) (s : RState Idx3 α) : Prop :=
  (ε < s.err ∧ s.it < maxIt) ∨ s.it < minIt

instance (ε : α) (maxIt minIt : ℕ) : DecidablePred (cond3 ε maxIt minIt) :=
  fun s => by unfold cond3; infer_instance

/-- The `relax3d` solver with its parameterised minimum-iteration floor. -/
def relax3d (nx ny nz : ℕ) (C : Coeffs3 α) (ω ε : α) (maxIt minIt : ℕ)
    (U0 : Idx3 → α) : RState Idx3 α :=
  whileLoop (cond3 ε maxIt minIt) (body3 nx ny nz C ω)
    (maxIt + minIt + 1) ⟨U0, 1, 0⟩

/-- Inner-loop step of lab2's `relax` (lines 20-26): compute the
Gauss-Seidel target `t`, accumulate the in-sweep deviation
`abs(U[i,j] - t)` into the running error, then update the node. -/
def stepL2 (C : Coeffs2 α) (inv : Idx2 → α) (ω : α)
    (s : (Idx2 → α) × α) (p : Idx2) : (Idx2 → α) × α :=
  let t := gsT2 C inv s.1 p
  (Function.update s.1 p (t * ω + s.1 p * (1 - ω)), max s.2 |s.1 p - t|)

/-- Loop body of lab2's `relax` (lines 15-26): reset `err = 0`, then run
the interior sweep accumulating the in-sweep deviation. -/
def bodyL2 (n m : ℕ) (C : Coeffs2 α) (ω : α) (s : RState Idx2 α) :
    RState Idx2 α :=
  let r := (interiorIdx2 n m).foldl (stepL2 C (invFull C.b) ω) (s.U, 0)
  ⟨r.1, r.2, s.it + 1⟩

/-- Loop guard of lab2's `relax` (line 14): `while err > eps and it < max_iter`
— no minimum-iteration floor. -/
def condL2 (ε : α) (maxIt : ℕ) (s : RState Idx2 α) : Prop :=
  ε < s.err ∧ s.it < maxIt

instance (ε : α) (maxIt : ℕ) : DecidablePred (condL2 ε maxIt) := fun s => by
  unfold condL2; infer_instance

/-- The lab2 `relax` solver (`alfa` is its name for the relaxation factor). -/
def relaxL2 (n m : ℕ) (C : Coeffs2 α) (ω ε : α) (maxIt : ℕ)
    (U0 : Idx2 → α) : RState Idx2 α :=
  whileLoop (condL2 ε maxIt) (bodyL2 n m C ω) (maxIt + 1) ⟨U0, 1, 0⟩

/-- Forward-elimination step of `thomas` (lines 192-195): for row `i`,
`w = a[i] / b[i-1]; b[i] = b[i] - w*c[i-1]; d[i] = d[i] - w*d[i-1]`,
mutating the diagonal and right-hand-side arrays in place (`a` and `c`
are only read). -/
def thomasFwdStep (a c : ℕ → α) (s : (ℕ → α) × (ℕ → α)) (i : ℕ) :
    (ℕ → α) × (ℕ → α) :=
  let w := a i / s.1 (i - 1)
  (Function.update s.1 i (s.1 i - w * c (i - 1)),
   Function.update s.2 i (s.2 i - w * s.2 (i - 1)))

/-- Forward sweep of `thomas`: the loop `for i in range(1, n)` applied to
the caller's arrays `b` and `d`; returns their final (mutated) values. -/
def thomasFwd (a b c d : ℕ → α) (n : ℕ) : (ℕ → α) × (ℕ → α) :=
  (List.range' 1 (n - 1)).foldl (thomasFwdStep a c) (b, d)

/-- Back-substitution values of `thomas` (lines 198-201), indexed by
distance from the last row: gap `0` is row `n-1` with `y = d[-1]/b[-1]`,
and gap `g+1` is row `n-2-g` with `y[i] = (d[i] - c[i]*y[i+1]) / b[i]`,
all read from the forward-eliminated arrays. -/
def backVal (c bF dF : ℕ → α) (n : ℕ) : ℕ → α
  | 0 => dF (n - 1) / bF (n - 1)
  | g + 1 => (dF (n - 2 - g) - c (n - 2 - g) * backVal c bF dF n g) /
      bF (n - 2 - g)

/-- The `thomas` tridiagonal solver: forward elimination followed by back
substitution; returns the freshly allocated solution vector `y`
(entries beyond `n` are the `np.zeros(n)` fill). -/
def thomas (a b c d : ℕ → α) (n : ℕ) : ℕ → α :=
  fun i =>
    if i < n then
      backVal c (thomasFwd a b c d n).1 (thomasFwd a b c d n).2 n (n - 1 - i)
    else 0

/-- Closed form of the forward-eliminated diagonal: the pivots of the
Thomas algorithm. -/
def bP (a b c : ℕ → α) : ℕ → α
  | 0 => b 0
  | i + 1 => b (i + 1) - a (i + 1) / bP a b c i * c i

/-- Closed form of the forward-eliminated right-hand side. -/
def dP (a b c d : ℕ → α) : ℕ → α
  | 0 => d 0
  | i + 1 => d (i + 1) - a (i + 1) / bP a b c i * dP a b c d i

/-- Stencil equation the 2D solvers solve, per relax2d's docstring (lines
9-12): `ax*U[i-1,j] + cx*U[i+1,j] + ay*U[i,j-1] + cy*U[i,j+1] - b*U[i,j]
= d_rhs`. -/
def stencilEq2 (C : Coeffs2 α) (U : Idx2 → α) (p : Idx2) : Prop :=
  C.ax p * U (p.1 - 1, p.2) + C.cx p * U (p.1 + 1, p.2) +
    C.ay p * U (p.1, p.2 - 1) + C.cy p * U (p.1, p.2 + 1) -
    C.b p * U p = C.d p

end SolverRuns

/-- Experiment selector of lab1-standing-waves (config.py / simulation.py). -/
inductive ExperimentType : Type
  | FREE_CENTER : ExperimentType
  | CLAMPED_CENTER : ExperimentType
  | FREE_TWO_GENERATORS : ExperimentType
deriving DecidableEq

/-- Boundary-condition selector set by `get_config`. -/
inductive BC : Type
  | neumann : BC
  | dirichlet : BC
deriving DecidableEq

/-- Configuration dictionary of `get_config` (config.py).  Note: it has no
minimum-iteration entry of any kind — only `relax_max_iter`. -/
structure Config : Type where
  nx : ℕ
  ny : ℕ
  Lx : ℝ
  Ly : ℝ
  amplitude : ℝ
  frequency_k : ℝ
  dt : ℝ
  max_steps : ℕ
  relax_alfa : ℝ
  relax_eps : ℝ
  relax_max_iter : ℕ
  experiment_type : ExperimentType
  light_k : ℕ
  ds : ℕ
  boundary_condition : BC

/-- Base parameter block of `get_config` (config.py lines 6-21). -/
def baseConfig (e : ExperimentType) (bc : BC) : Config :=
  { nx := 101, ny := 101, Lx := 1, Ly := 1, amplitude := 2e-4,
    frequency_k := 4, dt := 1e-2, max_steps := 500, relax_alfa := 1.8,
    relax_eps := 1e-13, relax_max_iter := 5000, experiment_type := e,
    light_k := 2, ds := 4, boundary_condition := bc }

/-- The `get_config` function (config.py): builds the base dictionary, sets
`boundary_condition` from the experiment type, and raises `ValueError` for
an unknown experiment type.  No other validation is performed. -/
def getConfig (s : String) : Except String Config :=
  if s = "FREE_CENTER" then
    Except.ok (baseConfig ExperimentType.FREE_CENTER BC.neumann)
  else if s = "FREE_TWO_GENERATORS" then
    Except.ok (baseConfig ExperimentType.FREE_TWO_GENERATORS BC.neumann)
  else if s = "CLAMPED_CENTER" then
    Except.ok (baseConfig ExperimentType.CLAMPED_CENTER BC.dirichlet)
  else Except.error ("Unknown experiment_type: " ++ s)

/-- Time-varying source signal of `set_sources` (simulation.py line 35):
`source_value = AA * np.sin(np.pi * KK * k * dt)`. -/
noncomputable def sourceValue (cfg : Config) (k : ℕ) : ℝ :=
  cfg.amplitude * Real.sin (Real.pi * cfg.frequency_k * k * cfg.dt)

/-- Row override applied by `set_sources` at one source node: all four
neighbour coefficients `0`, diagonal `1`, right-hand side the source
signal (simulation.py lines 39-41 and 45-51). -/
noncomputable def pinNode (C : Coeffs2 ℝ) (p : Idx2) (v : ℝ) : Coeffs2 ℝ :=
  { ax := Function.update C.ax p 0, cx := Function.update C.cx p 0,
    ay := Function.update C.ay p 0, cy := Function.update C.cy p 0,
    b := Function.update C.b p 1, d := Function.update C.d p v }

/-- The `set_sources` function (simulation.py lines 29-51): a single centre
source for the `FREE_CENTER` / `CLAMPED_CENTER` experiments, two symmetric
sources for `FREE_TWO_GENERATORS`. -/
noncomputable def setSources (k : ℕ) (C : Coeffs2 ℝ) (cfg : Config) :
    Coeffs2 ℝ :=
  match cfg.experiment_type with
  | ExperimentType.FREE_CENTER =>
      pinNode C (cfg.nx / 2, cfg.ny / 2) (sourceValue cfg k)
  | ExperimentType.CLAMPED_CENTER =>
      pinNode C (cfg.nx / 2, cfg.ny / 2) (sourceValue cfg k)
  | ExperimentType.FREE_TWO_GENERATORS =>
      pinNode (pinNode C (1, cfg.ny / 2) (sourceValue cfg k))
        (cfg.nx - 2, cfg.ny / 2) (sourceValue cfg k)

/-- The `apply_neumann_coeff_mods` function (simulation.py lines 7-16):
fold the coupling to each boundary ring into the diagonal of the adjacent
line and zero that coupling, in the source's statement order. -/
noncomputable def neumannMods (nx ny : ℕ) (C : Coeffs2 ℝ) : Coeffs2 ℝ :=
  let b1 := fun p : Idx2 => if p.2 = 1 then C.b p - C.ay p else C.b p
  let ay1 := fun p : Idx2 => if p.2 = 1 then 0 else C.ay p
  let b2 := fun p : Idx2 => if p.2 = ny - 2 then b1 p - C.cy p else b1 p
  let cy1 := fun p : Idx2 => if p.2 = ny - 2 then 0 else C.cy p
  let b3 := fun p : Idx2 => if p.1 = 1 then b2 p - C.ax p else b2 p
  let ax1 := fun p : Idx2 => if p.1 = 1 then 0 else C.ax p
  let b4 := fun p : Idx2 => if p.1 = nx - 2 then b3 p - C.cx p else b3 p
  let cx1 := fun p : Idx2 => if p.1 = nx - 2 then 0 else C.cx p
  { ax := ax1, cx := cx1, ay := ay1, cy := cy1, b := b4, d := C.d }

/-- The `copy_neumann_boundaries` function (simulation.py lines 18-27):
mirror the interior-adjacent lines onto the boundary ring, then average
the four corners, in the source's statement order. -/
noncomputable def neumannCopy (nx ny : ℕ) (U : Idx2 → ℝ) : Idx2 → ℝ :=
  let V1 := fun p : Idx2 => if p.2 = 0 then U (p.1, 1) else U p
  let V2 := fun p : Idx2 => if p.2 = ny - 1 then V1 (p.1, ny - 2) else V1 p
  let V3 := fun p : Idx2 => if p.1 = 0 then V2 (1, p.2) else V2 p
  let V4 := fun p : Idx2 => if p.1 = nx - 1 then V3 (nx - 2, p.2) else V3 p
  let V5 := Function.update V4 (0, 0) (0.5 * (V4 (1, 0) + V4 (0, 1)))
  let V6 := Function.update V5 (nx - 1, ny - 1)
    (0.5 * (V5 (nx - 2, ny - 1) + V5 (nx - 1, ny - 2)))
  let V7 := Function.update V6 (0, ny - 1)
    (0.5 * (V6 (0, ny - 2) + V6 (1, ny - 1)))
  Function.update V7 (nx - 1, 0) (0.5 * (V7 (nx - 1, 1) + V7 (nx - 2, 0)))

/-- Post-solve boundary correction of the `dirichlet` branch
(simulation.py line 115): `U[0,:], U[-1,:], U[:,0], U[:,-1] = 0,0,0,0`. -/
noncomputable def dirichletZero (nx ny : ℕ) (U : Idx2 → ℝ) : Idx2 → ℝ := fun p =>
  if p.1 = 0 ∨ p.1 = nx - 1 ∨ p.2 = 0 ∨ p.2 = ny - 1 then 0 else U p

/-- Right-hand-side assembly of the driver (simulation.py lines 90-97):
central time difference from layers `U1`, `U0` and a half-weighted spatial
Laplacian of `U0`, on interior nodes only (`np.zeros` elsewhere). -/
noncomputable def assembleRhs (nx ny : ℕ) (hx hy dt : ℝ) (U0 U1 : Idx2 → ℝ) :
    Idx2 → ℝ := fun p =>
  if Interior2 nx ny p then
    (-2 * U1 p + U0 p) / dt ^ 2 -
      0.5 * ((U0 (p.1 - 1, p.2) - 2 * U0 p + U0 (p.1 + 1, p.2)) / hx ^ 2 +
        (U0 (p.1, p.2 - 1) - 2 * U0 p + U0 (p.1, p.2 + 1)) / hy ^ 2)
  else 0

/-- Base stencil coefficients of the driver (simulation.py lines 77-81),
constant arrays rebuilt fresh (copied) every time step. -/
noncomputable def baseCoeffs (hx hy dt : ℝ) (dRhs : Idx2 → ℝ) : Coeffs2 ℝ :=
  { ax := fun _ => 0.5 / hx ^ 2, cx := fun _ => 0.5 / hx ^ 2,
    ay := fun _ => 0.5 / hy ^ 2, cy := fun _ => 0.5 / hy ^ 2,
    b := fun _ => 0.5 / hx ^ 2 + 0.5 / hx ^ 2 + 0.5 / hy ^ 2 + 0.5 / hy ^ 2 +
      1 / dt ^ 2,
    d := dRhs }

/-- Mutable state of the simulation loop: the two previous time layers and
the append-only history stack of solved fields. -/
structure SimState : Type where
  U0 : Idx2 → ℝ
  U1 : Idx2 → ℝ
  frames : List (Idx2 → ℝ)

/-- One iteration of the driver's time loop (simulation.py lines 87-118):
assemble fresh coefficients and right-hand side, inject sources, apply the
Neumann coefficient surgery if selected, solve with `relax`, apply the
post-solve boundary correction, append the frame, and advance the layers.
The `relax` imported by the driver (lab1-standing-waves/src/solver.py) is
not part of the provided sources; it is modelled by the identically named
lab2 solver `relaxL2`, the near-duplicate the specification describes. -/
noncomputable def simStep (cfg : Config) (hx hy : ℝ) (st : SimState)
    (k : ℕ) : SimState :=
  let C0 := baseCoeffs hx hy cfg.dt
    (assembleRhs cfg.nx cfg.ny hx hy cfg.dt st.U0 st.U1)
  let C1 := setSources k C0 cfg
  let C2 := if cfg.boundary_condition = BC.neumann
    then neumannMods cfg.nx cfg.ny C1 else C1
  let Usol := (relaxL2 cfg.nx cfg.ny C2 cfg.relax_alfa cfg.relax_eps
    cfg.relax_max_iter st.U1).U
  let Ufix := match cfg.boundary_condition with
    | BC.neumann => neumannCopy cfg.nx cfg.ny Usol
    | BC.dirichlet => dirichletZero cfg.nx cfg.ny Usol
  ⟨st.U1, Ufix, st.frames ++ [Ufix]⟩

/-- The `run_simulation` driver (simulation.py lines 55-120): zero initial
layers (`U1` additionally receives the zero initial velocity on the
interior), then the time loop `for k in range(1, max_steps + 1)`;
returns the final state, whose `frames` list is the history stack
`U_stack` in time order. -/
noncomputable def runSimulation (cfg : Config) : SimState :=
  let hx := cfg.Lx / ((cfg.nx : ℝ) - 1)
  let hy := cfg.Ly / ((cfg.ny : ℝ) - 1)
  let U : Idx2 → ℝ := fun _ => 0
  let U1 : Idx2 → ℝ := fun p =>
    if Interior2 cfg.nx cfg.ny p then U p + cfg.dt * U p else U p
  (List.range' 1 cfg.max_steps).foldl (simStep cfg hx hy) ⟨U, U1, []⟩

/-! Concrete fixtures over ℚ used to instantiate the claim theorems and
for counterexample evaluations: a 3×3 grid (and 3×3×3 grid) whose single
interior node has all four (six) neighbour coefficients `1`, diagonal `1`
and right-hand side `0`, and an initial field that is `0` at the interior
node and `1` elsewhere. -/

def cW2 : Coeffs2 ℚ :=
  ⟨fun _ => 1, fun _ => 1, fun _ => 1, fun _ => 1, fun _ => 1, fun _ => 0⟩

def cW3 : Coeffs3 ℚ :=
  ⟨fun _ => 1, fun _ => 1, fun _ => 1, fun _ => 1, fun _ => 1, fun _ => 1,
   fun _ => 1, fun _ => 0⟩

def uW2 : Idx2 → ℚ := fun p => if p = (1, 1) then 0 else 1

def stW2 : RState Idx2 ℚ := ⟨uW2, 1, 0⟩

def uW3 : Idx3 → ℚ := fun p => if p = (1, 1, 1) then 0 else 1

def stW3 : RState Idx3 ℚ := ⟨uW3, 1, 0⟩

/-- Fixture configuration: the `FREE_CENTER` experiment as produced by
`get_config`. -/
def cfgFC : Config := baseConfig ExperimentType.FREE_CENTER BC.neumann

/-- Source value of the fixture configuration at time step `1`. -/
noncomputable def srcV1 : ℝ := sourceValue cfgFC 1

/-- All-zero 2D coefficient set over ℝ, fed to `set_sources` in the
counterexample. -/
def zeroC2 : Coeffs2 ℝ :=
  ⟨fun _ => 0, fun _ => 0, fun _ => 0, fun _ => 0, fun _ => 0, fun _ => 0⟩

/-- Candidate solution field holding the negated source value
everywhere. -/
noncomputable def vNeg : Idx2 → ℝ := fun _ => -srcV1

/-- Tridiagonal witness system: sub-diagonal `(_, 1, 1)`, diagonal `4`,
super-diagonal `1`, right-hand side `i + 1`. -/
def aW : ℕ → ℚ := fun i => if i = 0 then 0 else 1

def bW : ℕ → ℚ := fun _ => 4

def cWt : ℕ → ℚ := fun _ => 1

def dW : ℕ → ℚ := fun i => (i : ℚ) + 1

/-! ### Generic machinery: point-update folds, traversal decompositions,
and the fuelled while-loop. -/

theorem foldl_update_untouched {ι α : Type} [DecidableEq ι]
    (g : (ι → α) → ι → α) (l : List ι) (V : ι → α) (x : ι)
    (h : ∀ q ∈ l, x ≠ q) :
    l.foldl (fun W q => Function.update W q (g W q)) V x = V x := by
  induction l generalizing V with
  | nil => rfl
  | cons p t ih =>
      rw [List.foldl_cons, ih _ (fun q hq => h q (List.mem_cons_of_mem p hq)),
        Function.update_noteq (h p (List.mem_cons_self p t))]

theorem range'_split {s k a : ℕ} (h1 : s ≤ a) (h2 : a < s + k) :
    List.range' s k =
      List.range' s (a - s) ++ a :: List.range' (a + 1) (s + k - a - 1) := by
  have e1 := List.range'_append s (a - s) (s + k - a - 1 + 1) 1
  have e2 : s + 1 * (a - s) = a := by omega
  have e3 : s + k - a - 1 + 1 + (a - s) = k := by omega
  rw [e2, e3] at e1
  rw [← e1, List.range'_succ]

theorem mem_row2 {m i : ℕ} {q : Idx2} (hq : q ∈ row2 m i) :
    q.1 = i ∧ 1 ≤ q.2 ∧ q.2 < 1 + (m - 2) := by
  rcases List.mem_map.1 hq with ⟨j, hj, rfl⟩
  exact ⟨rfl, (List.mem_range'_1.1 hj).1, (List.mem_range'_1.1 hj).2⟩

theorem mem_interiorIdx2 {n m : ℕ} {q : Idx2} (hq : q ∈ interiorIdx2 n m) :
    Interior2 n m q := by
  rcases List.mem_flatMap.1 hq with ⟨i, hi, hrow⟩
  rcases List.mem_range'_1.1 hi with ⟨hi1, hi2⟩
  rcases mem_row2 hrow with ⟨h1, h2, h3⟩
  exact ⟨h1 ▸ hi1, by omega, h2, by omega⟩

theorem mem_line3 {nz i j : ℕ} {q : Idx3} (hq : q ∈ line3 nz i j) :
    q.1 = i ∧ q.2.1 = j ∧ 1 ≤ q.2.2 ∧ q.2.2 < 1 + (nz - 2) := by
  rcases List.mem_map.1 hq with ⟨k, hk, rfl⟩
  exact ⟨rfl, rfl, (List.mem_range'_1.1 hk).1, (List.mem_range'_1.1 hk).2⟩

theorem mem_plane3 {ny nz i : ℕ} {q : Idx3} (hq : q ∈ plane3 ny nz i) :
    q.1 = i ∧ 1 ≤ q.2.1 ∧ q.2.1 < 1 + (ny - 2) ∧
      1 ≤ q.2.2 ∧ q.2.2 < 1 + (nz - 2) := by
  rcases List.mem_flatMap.1 hq with ⟨j, hj, hline⟩
  rcases List.mem_range'_1.1 hj with ⟨hj1, hj2⟩
  rcases mem_line3 hline with ⟨h1, h2, h3, h4⟩
  exact ⟨h1, h2 ▸ hj1, h2 ▸ hj2, h3, h4⟩

theorem mem_interiorIdx3 {nx ny nz : ℕ} {q : Idx3}
    (hq : q ∈ interiorIdx3 nx ny nz) : Interior3 nx ny nz q := by
  rcases List.mem_flatMap.1 hq with ⟨i, hi, hplane⟩
  rcases List.mem_range'_1.1 hi with ⟨hi1, hi2⟩
  rcases mem_plane3 hplane with ⟨h1, h2, h3, h4, h5⟩
  exact ⟨h1 ▸ hi1, by omega, h2, by omega, h4, by omega⟩

theorem interiorIdx2_decomp {n m i j : ℕ} (hi : 1 ≤ i) (hi2 : i < n - 1)
    (hj : 1 ≤ j) (hj2 : j < m - 1) :
    interiorIdx2 n m = pre2 m i j ++ (i, j) :: post2 n m i j := by
  have hrow : row2 m i = (List.range' 1 (j - 1)).map (fun b => (i, b)) ++
      (i, j) :: (List.range' (j + 1) (m - 2 - j)).map (fun b => (i, b)) := by
    have hs : List.range' 1 (m - 2) =
        List.range' 1 (j - 1) ++ j :: List.range' (j + 1) (m - 2 - j) := by
      have := range'_split (s := 1) (k := m - 2) (a := j) hj (by omega)
      rwa [show 1 + (m - 2) - j - 1 = m - 2 - j by omega] at this
    rw [row2, hs, List.map_append, List.map_cons]
  have hsplit : List.range' 1 (n - 2) =
      List.range' 1 (i - 1) ++ i :: List.range' (i + 1) (n - 2 - i) := by
    have := range'_split (s := 1) (k := n - 2) (a := i) hi (by omega)
    rwa [show 1 + (n - 2) - i - 1 = n - 2 - i by omega] at this
  rw [interiorIdx2, hsplit, List.flatMap_append, List.flatMap_cons, hrow,
    pre2, post2]
  simp [List.append_assoc]

theorem mem_pre2 {m i j : ℕ} {q : Idx2} (hq : q ∈ pre2 m i j) :
    q.1 < i ∨ (q.1 = i ∧ q.2 < j) := by
  rcases List.mem_append.1 hq with h | h
  · rcases List.mem_flatMap.1 h with ⟨a, ha, hrow⟩
    rcases List.mem_range'_1.1 ha with ⟨ha1, ha2⟩
    have h1 := (mem_row2 hrow).1
    exact Or.inl (by omega)
  · rcases List.mem_map.1 h with ⟨b, hb, rfl⟩
    rcases List.mem_range'_1.1 hb with ⟨hb1, hb2⟩
    exact Or.inr ⟨rfl, show b < j by omega⟩

theorem mem_post2 {n m i j : ℕ} {q : Idx2} (hq : q ∈ post2 n m i j) :
    i < q.1 ∨ (q.1 = i ∧ j < q.2) := by
  rcases List.mem_append.1 hq with h | h
  · rcases List.mem_map.1 h with ⟨b, hb, rfl⟩
    exact Or.inr ⟨rfl, by have := (List.mem_range'_1.1 hb).1; omega⟩
  · rcases List.mem_flatMap.1 h with ⟨a, ha, hrow⟩
    rcases List.mem_range'_1.1 ha with ⟨ha1, ha2⟩
    have h1 := (mem_row2 hrow).1
    exact Or.inl (by omega)

/-! While-loop lemmas: the guard fails at the returned state whenever the
fuel covers the iteration bound, the counter never over-runs its bound,
and any invariant of the body is an invariant of the loop. -/

theorem whileLoop_stop {σ : Type} (c : σ → Prop) [DecidablePred c]
    (body : σ → σ) (itOf : σ → ℕ)
    (hit : ∀ s, itOf (body s) = itOf s + 1) (B : ℕ)
    (hc : ∀ s, c s → itOf s < B) :
    ∀ (f : ℕ) (s : σ), B ≤ itOf s + f → ¬ c (whileLoop c body f s) := by
  intro f
  induction f with
  | zero =>
      intro s hB hcs
      exact absurd (hc s hcs) (by simpa using hB)
  | succ f ih =>
      intro s hB
      rw [whileLoop]
      by_cases hcs : c s
      · rw [if_pos hcs]
        exact ih (body s) (by rw [hit]; omega)
      · rwa [if_neg hcs]

theorem whileLoop_it_le {σ : Type} (c : σ → Prop) [DecidablePred c]
    (body : σ → σ) (itOf : σ → ℕ)
    (hit : ∀ s, itOf (body s) = itOf s + 1) (B : ℕ)
    (hc : ∀ s, c s → itOf s < B) :
    ∀ (f : ℕ) (s : σ), itOf s ≤ B → itOf (whileLoop c body f s) ≤ B := by
  intro f
  induction f with
  | zero => intro s hs; simpa [whileLoop] using hs
  | succ f ih =>
      intro s hs
      rw [whileLoop]
      by_cases hcs : c s
      · rw [if_pos hcs]
        exact ih (body s) (by rw [hit]; exact hc s hcs)
      · rwa [if_neg hcs]

theorem whileLoop_exact {σ : Type} (c : σ → Prop) [DecidablePred c]
    (body : σ → σ) (itOf : σ → ℕ)
    (hit : ∀ s, itOf (body s) = itOf s + 1) (N : ℕ)
    (hiff : ∀ s, c s ↔ itOf s < N) :
    ∀ (f : ℕ) (s : σ), itOf s ≤ N → N ≤ itOf s + f →
      itOf (whileLoop c body f s) = N := by
  intro f
  induction f with
  | zero => intro s h1 h2; simpa [whileLoop] using le_antisymm h1 (by omega)
  | succ f ih =>
      intro s h1 h2
      rw [whileLoop]
      by_cases hcs : c s
      · rw [if_pos hcs]
        have := (hiff s).1 hcs
        exact ih (body s) (by rw [hit]; omega) (by rw [hit]; omega)
      · rw [if_neg hcs]
        have h3 : ¬ itOf s < N := fun h => hcs ((hiff s).2 h)
        omega

section Sweep2Char

variable {α : Type} [LinearOrderedField α]

theorem ne_pre2 {m i j : ℕ} {q : Idx2} (hq : q ∈ pre2 m i j)
    {a b : ℕ} (hab : i ≤ a ∧ (a = i → j ≤ b)) : ((a, b) : Idx2) ≠ q := by
  obtain ⟨q1, q2⟩ := q
  rcases mem_pre2 hq with h1 | ⟨h1, h2⟩ <;>
    · simp only [ne_eq, Prod.mk.injEq, not_and]
      omega

theorem ne_post2 {n m i j : ℕ} {q : Idx2} (hq : q ∈ post2 n m i j)
    {a b : ℕ} (hab : a ≤ i ∧ (a = i → b ≤ j)) : ((a, b) : Idx2) ≠ q := by
  obtain ⟨q1, q2⟩ := q
  rcases mem_post2 hq with h1 | ⟨h1, h2⟩ <;>
    · simp only [ne_eq, Prod.mk.injEq, not_and]
      omega

/-- Pointwise characterisation of one 2D row-major Gauss-Seidel sweep: at
each interior node the written value is the over-relaxed target computed
from the already-updated lower-index neighbours (their final sweep values)
and the not-yet-updated higher-index neighbours (their pre-sweep values). -/
theorem sweep2_at {n m : ℕ} (C : Coeffs2 α) (inv : Idx2 → α) (ω : α)
    (U : Idx2 → α) {i j : ℕ} (hi : 1 ≤ i) (hi2 : i < n - 1) (hj : 1 ≤ j)
    (hj2 : j < m - 1) :
    sweep2 n m C inv ω U (i, j) =
      (C.ax (i, j) * sweep2 n m C inv ω U (i - 1, j) +
       C.cx (i, j) * U (i + 1, j) +
       C.ay (i, j) * sweep2 n m C inv ω U (i, j - 1) +
       C.cy (i, j) * U (i, j + 1) - C.d (i, j)) * inv (i, j) * ω +
        U (i, j) * (1 - ω) := by
  have hpre : ∀ (x : Idx2), (∀ q ∈ pre2 m i j, x ≠ q) →
      (pre2 m i j).foldl (upd2 C inv ω) U x = U x :=
    fun x hx => foldl_update_untouched (newVal2 C inv ω) _ U x hx
  have hpost : ∀ (V : Idx2 → α) (x : Idx2), (∀ q ∈ post2 n m i j, x ≠ q) →
      (post2 n m i j).foldl (upd2 C inv ω) V x = V x :=
    fun V x hx => foldl_update_untouched (newVal2 C inv ω) _ V x hx
  have hdec := interiorIdx2_decomp (n := n) (m := m) hi hi2 hj hj2
  have hFold : ∀ (x : Idx2), sweep2 n m C inv ω U x =
      (post2 n m i j).foldl (upd2 C inv ω)
        (upd2 C inv ω ((pre2 m i j).foldl (upd2 C inv ω) U) (i, j)) x := by
    intro x
    rw [sweep2, hdec, List.foldl_append, List.foldl_cons]
  have hWij := hpre (i, j) (fun q hq => ne_pre2 hq ⟨le_refl i, fun _ => le_refl j⟩)
  have hWxp := hpre (i + 1, j) (fun q hq => ne_pre2 hq ⟨by omega, by omega⟩)
  have hWyp := hpre (i, j + 1) (fun q hq => ne_pre2 hq ⟨le_refl i, by omega⟩)
  have hFxm : sweep2 n m C inv ω U (i - 1, j) =
      (pre2 m i j).foldl (upd2 C inv ω) U (i - 1, j) := by
    rw [hFold (i - 1, j),
      hpost _ _ (fun q hq => ne_post2 hq ⟨by omega, by omega⟩),
      upd2, Function.update_noteq (by
        simp only [ne_eq, Prod.mk.injEq, not_and]; omega)]
  have hFym : sweep2 n m C inv ω U (i, j - 1) =
      (pre2 m i j).foldl (upd2 C inv ω) U (i, j - 1) := by
    rw [hFold (i, j - 1),
      hpost _ _ (fun q hq => ne_post2 hq ⟨le_refl i, by omega⟩),
      upd2, Function.update_noteq (by
        simp only [ne_eq, Prod.mk.injEq, not_and]; omega)]
  rw [hFold (i, j),
    hpost _ _ (fun q hq => ne_post2 hq ⟨le_refl i, fun _ => le_refl j⟩),
    upd2, Function.update_same, newVal2, gsT2, hFxm, hFym]
  rw [hWij, hWxp, hWyp]

end Sweep2Char

section Sweep3Char

variable {α : Type} [LinearOrderedField α]

theorem interiorIdx3_decomp {nx ny nz i j k : ℕ} (hi : 1 ≤ i)
    (hi2 : i < nx - 1) (hj : 1 ≤ j) (hj2 : j < ny - 1) (hk : 1 ≤ k)
    (hk2 : k < nz - 1) :
    interiorIdx3 nx ny nz =
      pre3 ny nz i j k ++ (i, j, k) :: post3 nx ny nz i j k := by
  have hline : line3 nz i j =
      (List.range' 1 (k - 1)).map (fun c => (i, j, c)) ++ (i, j, k) ::
        (List.range' (k + 1) (nz - 2 - k)).map (fun c => (i, j, c)) := by
    have hs : List.range' 1 (nz - 2) =
        List.range' 1 (k - 1) ++ k :: List.range' (k + 1) (nz - 2 - k) := by
      have := range'_split (s := 1) (k := nz - 2) (a := k) hk (by omega)
      rwa [show 1 + (nz - 2) - k - 1 = nz - 2 - k by omega] at this
    rw [line3, hs, List.map_append, List.map_cons]
  have hplane : plane3 ny nz i =
      (List.range' 1 (j - 1)).flatMap (line3 nz i) ++
        ((List.range' 1 (k - 1)).map (fun c => (i, j, c)) ++ (i, j, k) ::
          (List.range' (k + 1) (nz - 2 - k)).map (fun c => (i, j, c))) ++
        (List.range' (j + 1) (ny - 2 - j)).flatMap (line3 nz i) := by
    have hs : List.range' 1 (ny - 2) =
        List.range' 1 (j - 1) ++ j :: List.range' (j + 1) (ny - 2 - j) := by
      have := range'_split (s := 1) (k := ny - 2) (a := j) hj (by omega)
      rwa [show 1 + (ny - 2) - j - 1 = ny - 2 - j by omega] at this
    rw [plane3, hs, List.flatMap_append, List.flatMap_cons, hline]
    simp [List.append_assoc]
  have hsplit : List.range' 1 (nx - 2) =
      List.range' 1 (i - 1) ++ i :: List.range' (i + 1) (nx - 2 - i) := by
    have := range'_split (s := 1) (k := nx - 2) (a := i) hi (by omega)
    rwa [show 1 + (nx - 2) - i - 1 = nx - 2 - i by omega] at this
  rw [interiorIdx3, hsplit, List.flatMap_append, List.flatMap_cons, hplane,
    pre3, post3]
  simp [List.append_assoc]

theorem mem_pre3 {ny nz i j k : ℕ} {q : Idx3} (hq : q ∈ pre3 ny nz i j k) :
    q.1 < i ∨ (q.1 = i ∧ (q.2.1 < j ∨ (q.2.1 = j ∧ q.2.2 < k))) := by
  rcases List.mem_append.1 hq with h | h
  · rcases List.mem_flatMap.1 h with ⟨a, ha, hpl⟩
    rcases List.mem_range'_1.1 ha with ⟨ha1, ha2⟩
    have h1 := (mem_plane3 hpl).1
    exact Or.inl (by omega)
  · rcases List.mem_append.1 h with h | h
    · rcases List.mem_flatMap.1 h with ⟨a, ha, hln⟩
      rcases List.mem_range'_1.1 ha with ⟨ha1, ha2⟩
      rcases mem_line3 hln with ⟨h1, h2, _⟩
      exact Or.inr ⟨h1, Or.inl (by omega)⟩
    · rcases List.mem_map.1 h with ⟨c, hc, rfl⟩
      rcases List.mem_range'_1.1 hc with ⟨hc1, hc2⟩
      exact Or.inr ⟨rfl, Or.inr ⟨rfl, show c < k by omega⟩⟩

theorem mem_post3 {nx ny nz i j k : ℕ} {q : Idx3}
    (hq : q ∈ post3 nx ny nz i j k) :
    i < q.1 ∨ (q.1 = i ∧ (j < q.2.1 ∨ (q.2.1 = j ∧ k < q.2.2))) := by
  rcases List.mem_append.1 hq with h | h
  · rcases List.mem_append.1 h with h | h
    · rcases List.mem_map.1 h with ⟨c, hc, rfl⟩
      rcases List.mem_range'_1.1 hc with ⟨hc1, hc2⟩
      exact Or.inr ⟨rfl, Or.inr ⟨rfl, show k < c by omega⟩⟩
    · rcases List.mem_flatMap.1 h with ⟨a, ha, hln⟩
      rcases List.mem_range'_1.1 ha with ⟨ha1, ha2⟩
      rcases mem_line3 hln with ⟨h1, h2, _⟩
      exact Or.inr ⟨h1, Or.inl (by omega)⟩
  · rcases List.mem_flatMap.1 h with ⟨a, ha, hpl⟩
    rcases List.mem_range'_1.1 ha with ⟨ha1, ha2⟩
    have h1 := (mem_plane3 hpl).1
    exact Or.inl (by omega)

theorem ne_pre3 {ny nz i j k : ℕ} {q : Idx3} (hq : q ∈ pre3 ny nz i j k)
    {a b c : ℕ}
    (hab : i ≤ a ∧ (a = i → j ≤ b ∧ (b = j → k ≤ c))) :
    ((a, b, c) : Idx3) ≠ q := by
  obtain ⟨q1, q2, q3⟩ := q
  have hm := mem_pre3 hq
  dsimp only at hm
  simp only [ne_eq, Prod.mk.injEq]
  omega

theorem ne_post3 {nx ny nz i j k : ℕ} {q : Idx3}
    (hq : q ∈ post3 nx ny nz i j k) {a b c : ℕ}
    (hab : a ≤ i ∧ (a = i → b ≤ j ∧ (b = j → c ≤ k))) :
    ((a, b, c) : Idx3) ≠ q := by
  obtain ⟨q1, q2, q3⟩ := q
  have hm := mem_post3 hq
  dsimp only at hm
  simp only [ne_eq, Prod.mk.injEq]
  omega

/-- Pointwise characterisation of one 3D row-major Gauss-Seidel sweep,
analogous to the 2D case with six neighbours. -/
theorem sweep3_at {nx ny nz : ℕ} (C : Coeffs3 α) (inv : Idx3 → α) (ω : α)
    (U : Idx3 → α) {i j k : ℕ} (hi : 1 ≤ i) (hi2 : i < nx - 1) (hj : 1 ≤ j)
    (hj2 : j < ny - 1) (hk : 1 ≤ k) (hk2 : k < nz - 1) :
    sweep3 nx ny nz C inv ω U (i, j, k) =
      ω * ((C.ax (i, j, k) * sweep3 nx ny nz C inv ω U (i - 1, j, k) +
        C.cx (i, j, k) * U (i + 1, j, k) +
        C.ay (i, j, k) * sweep3 nx ny nz C inv ω U (i, j - 1, k) +
        C.cy (i, j, k) * U (i, j + 1, k) +
        C.az (i, j, k) * sweep3 nx ny nz C inv ω U (i, j, k - 1) +
        C.cz (i, j, k) * U (i, j, k + 1) - C.d (i, j, k)) * inv (i, j, k)) +
        (1 - ω) * U (i, j, k) := by
  have hpre : ∀ (x : Idx3), (∀ q ∈ pre3 ny nz i j k, x ≠ q) →
      (pre3 ny nz i j k).foldl (upd3 C inv ω) U x = U x :=
    fun x hx => foldl_update_untouched (newVal3 C inv ω) _ U x hx
  have hpost : ∀ (V : Idx3 → α) (x : Idx3),
      (∀ q ∈ post3 nx ny nz i j k, x ≠ q) →
      (post3 nx ny nz i j k).foldl (upd3 C inv ω) V x = V x :=
    fun V x hx => foldl_update_untouched (newVal3 C inv ω) _ V x hx
  have hdec : interiorIdx3 nx ny nz =
      pre3 ny nz i j k ++ (i, j, k) :: post3 nx ny nz i j k :=
    interiorIdx3_decomp hi hi2 hj hj2 hk hk2
  have hFold : ∀ (x : Idx3), sweep3 nx ny nz C inv ω U x =
      (post3 nx ny nz i j k).foldl (upd3 C inv ω)
        (upd3 C inv ω ((pre3 ny nz i j k).foldl (upd3 C inv ω) U)
          (i, j, k)) x := by
    intro x
    rw [sweep3, hdec, List.foldl_append, List.foldl_cons]
  have hWijk := hpre (i, j, k)
    (fun q hq => ne_pre3 hq ⟨le_refl i, fun _ => ⟨le_refl j, fun _ => le_refl k⟩⟩)
  have hWxp := hpre (i + 1, j, k)
    (fun q hq => ne_pre3 hq ⟨by omega, by omega⟩)
  have hWyp := hpre (i, j + 1, k)
    (fun q hq => ne_pre3 hq ⟨le_refl i, fun _ => ⟨by omega, by omega⟩⟩)
  have hWzp := hpre (i, j, k + 1)
    (fun q hq => ne_pre3 hq ⟨le_refl i, fun _ => ⟨le_refl j, by omega⟩⟩)
  have hFxm : sweep3 nx ny nz C inv ω U (i - 1, j, k) =
      (pre3 ny nz i j k).foldl (upd3 C inv ω) U (i - 1, j, k) := by
    rw [hFold (i - 1, j, k),
      hpost _ _ (fun q hq => ne_post3 hq ⟨by omega, by omega⟩),
      upd3, Function.update_noteq (by
        simp only [ne_eq, Prod.mk.injEq, not_and]; omega)]
  have hFym : sweep3 nx ny nz C inv ω U (i, j - 1, k) =
      (pre3 ny nz i j k).foldl (upd3 C inv ω) U (i, j - 1, k) := by
    rw [hFold (i, j - 1, k),
      hpost _ _ (fun q hq => ne_post3 hq
        ⟨le_refl i, fun _ => ⟨by omega, by omega⟩⟩),
      upd3, Function.update_noteq (by
        simp only [ne_eq, Prod.mk.injEq, not_and]
        intro e1 e2
        omega)]
  have hFzm : sweep3 nx ny nz C inv ω U (i, j, k - 1) =
      (pre3 ny nz i j k).foldl (upd3 C inv ω) U (i, j, k - 1) := by
    rw [hFold (i, j, k - 1),
      hpost _ _ (fun q hq => ne_post3 hq
        ⟨le_refl i, fun _ => ⟨le_refl j, by omega⟩⟩),
      upd3, Function.update_noteq (by
        simp only [ne_eq, Prod.mk.injEq, not_and]
        intro e1 e2
        omega)]
  rw [hFold (i, j, k),
    hpost _ _ (fun q hq => ne_post3 hq
      ⟨le_refl i, fun _ => ⟨le_refl j, fun _ => le_refl k⟩⟩),
    upd3, Function.update_same, newVal3, gsT3, hFxm, hFym, hFzm]
  rw [hWijk, hWxp, hWyp, hWzp]

end Sweep3Char

theorem nodup_row2 (m i : ℕ) : (row2 m i).Nodup :=
  List.Nodup.map (fun a b h => (Prod.ext_iff.1 h).2)
    (List.nodup_range' 1 (m - 2))

theorem nodup_interiorIdx2 (n m : ℕ) : (interiorIdx2 n m).Nodup := by
  rw [interiorIdx2, List.nodup_flatMap]
  refine ⟨fun i _ => nodup_row2 m i, ?_⟩
  refine List.Pairwise.imp ?_ (List.nodup_range' 1 (n - 2))
  intro a b hab x hxa hxb
  exact hab ((mem_row2 hxa).1 ▸ (mem_row2 hxb).1 ▸ rfl)

theorem foldl_max_bounds {ι α : Type} [LinearOrder α] (f : ι → α) :
    ∀ (l : List ι) (e : α),
      e ≤ l.foldl (fun x p => max x (f p)) e ∧
      (∀ p ∈ l, f p ≤ l.foldl (fun x p => max x (f p)) e) ∧
      (l.foldl (fun x p => max x (f p)) e = e ∨
        ∃ p ∈ l, l.foldl (fun x p => max x (f p)) e = f p) := by
  intro l
  induction l with
  | nil => exact fun e => ⟨le_refl e, fun p hp => absurd hp (by simp),
      Or.inl rfl⟩
  | cons p t ih =>
      intro e
      obtain ⟨ih1, ih2, ih3⟩ := ih (max e (f p))
      refine ⟨le_trans (le_max_left e (f p)) ih1, ?_, ?_⟩
      · intro q hq
        rcases List.mem_cons.1 hq with rfl | hq
        · exact le_trans (le_max_right e (f q)) ih1
        · exact ih2 q hq
      · rcases ih3 with h | ⟨q, hq, h⟩
        · rcases max_choice e (f p) with he | he
          · exact Or.inl (by rw [List.foldl_cons, h, he])
          · exact Or.inr ⟨p, List.mem_cons_self p t,
              by rw [List.foldl_cons, h, he]⟩
        · exact Or.inr ⟨q, List.mem_cons_of_mem p hq,
            by rw [List.foldl_cons, h]⟩

theorem foldl_max_congr_on {ι α : Type} [LinearOrder α] {f g : ι → α} :
    ∀ (l : List ι) (e : α), (∀ q ∈ l, f q = g q) →
      l.foldl (fun x p => max x (f p)) e = l.foldl (fun x p => max x (g p)) e := by
  intro l
  induction l with
  | nil => intro e _; rfl
  | cons p t ih =>
      intro e h
      rw [List.foldl_cons, List.foldl_cons, h p (List.mem_cons_self p t),
        ih _ (fun q hq => h q (List.mem_cons_of_mem p hq))]

section L2Lemmas

variable {α : Type} [LinearOrderedField α]

/-- The field component of lab2's paired sweep-and-error fold is the plain
in-place sweep. -/
theorem stepL2_fst (C : Coeffs2 α) (inv : Idx2 → α) (ω : α) :
    ∀ (l : List Idx2) (U : Idx2 → α) (e : α),
      (l.foldl (stepL2 C inv ω) (U, e)).1 = l.foldl (upd2 C inv ω) U := by
  intro l
  induction l with
  | nil => intro U e; rfl
  | cons p t ih =>
      intro U e
      rw [List.foldl_cons, List.foldl_cons]
      exact ih _ _

/-- Relation between lab2's in-sweep deviation accumulator and the
pre-sweep-snapshot max-norm: scaling lab2's error by `ω` turns each
deviation `|U[i,j] - t|` into `|new - old|`, so the whole accumulated
error is the snapshot max-norm divided by `ω`. -/
theorem stepL2_err (C : Coeffs2 α) (inv : Idx2 → α) {ω : α} (hω : 0 < ω) :
    ∀ (l : List Idx2), l.Nodup → ∀ (U : Idx2 → α) (e : α),
      (l.foldl (stepL2 C inv ω) (U, e)).2 * ω =
        l.foldl (fun x p => max x |l.foldl (upd2 C inv ω) U p - U p|)
          (e * ω) := by
  intro l
  induction l with
  | nil => intro _ U e; rfl
  | cons p t ih =>
      intro hnd U e
      obtain ⟨hp, hnd⟩ := List.nodup_cons.1 hnd
      simp only [List.foldl_cons]
      have h1 : stepL2 C inv ω (U, e) p =
          (upd2 C inv ω U p, max e |U p - gsT2 C inv U p|) := rfl
      rw [h1, ih hnd]
      have hFp : t.foldl (upd2 C inv ω) (upd2 C inv ω U p) p =
          upd2 C inv ω U p p :=
        foldl_update_untouched (newVal2 C inv ω) t _ p
          (fun q hq he => hp (by rw [he]; exact hq))
      have hdev : (max e |U p - gsT2 C inv U p|) * ω =
          max (e * ω)
            |t.foldl (upd2 C inv ω) (upd2 C inv ω U p) p - U p| := by
        rw [hFp, upd2, Function.update_same, newVal2,
          max_mul_of_nonneg _ _ (le_of_lt hω)]
        congr 1
        rw [abs_sub_comm (gsT2 C inv U p * ω + U p * (1 - ω)) (U p),
          show U p - (gsT2 C inv U p * ω + U p * (1 - ω)) =
            (U p - gsT2 C inv U p) * ω by ring,
          abs_mul, abs_of_pos hω]
      rw [hdev]
      refine foldl_max_congr_on t _ (fun q hq => ?_)
      have hqp : q ≠ p := fun he => hp (by rw [← he]; exact hq)
      rw [upd2, Function.update_noteq hqp]

/-- Sweeps reading two pre-inverted diagonals that agree on the traversed
nodes coincide: the sweep reads `inv_b` at interior nodes only. -/
theorem foldl_upd2_inv_congr (C : Coeffs2 α) (inv1 inv2 : Idx2 → α) (ω : α) :
    ∀ (l : List Idx2) (U : Idx2 → α), (∀ p ∈ l, inv1 p = inv2 p) →
      l.foldl (upd2 C inv1 ω) U = l.foldl (upd2 C inv2 ω) U := by
  intro l
  induction l with
  | nil => intro U _; rfl
  | cons p t ih =>
      intro U h
      rw [List.foldl_cons, List.foldl_cons,
        show upd2 C inv1 ω U p = upd2 C inv2 ω U p by
          rw [upd2, upd2, newVal2, newVal2, gsT2, gsT2,
            h p (List.mem_cons_self p t)]]
      exact ih _ (fun q hq => h q (List.mem_cons_of_mem p hq))

end L2Lemmas

section ThomasLemmas

variable {α : Type} [LinearOrderedField α]

theorem thomasFwdAux (a b c d : ℕ → α) : ∀ (k : ℕ) (i : ℕ),
    ((List.range' 1 k).foldl (thomasFwdStep a c) (b, d)).1 i =
      (if 1 ≤ i ∧ i ≤ k then bP a b c i else b i) ∧
    ((List.range' 1 k).foldl (thomasFwdStep a c) (b, d)).2 i =
      (if 1 ≤ i ∧ i ≤ k then dP a b c d i else d i) := by
  intro k
  induction k with
  | zero =>
      intro i
      constructor <;> rw [if_neg (by omega)] <;> rfl
  | succ k ih =>
      intro i
      have hcat : List.range' 1 (k + 1) = List.range' 1 k ++ [1 + 1 * k] :=
        List.range'_concat 1 k
      have h1k : 1 + 1 * k = k + 1 := by omega
      rw [h1k] at hcat
      have hbk : ((List.range' 1 k).foldl (thomasFwdStep a c) (b, d)).1 k =
          bP a b c k := by
        rcases Nat.eq_zero_or_pos k with rfl | hk
        · rw [(ih 0).1, if_neg (by omega)]
          rfl
        · rw [(ih k).1, if_pos ⟨hk, le_refl k⟩]
      have hdk : ((List.range' 1 k).foldl (thomasFwdStep a c) (b, d)).2 k =
          dP a b c d k := by
        rcases Nat.eq_zero_or_pos k with rfl | hk
        · rw [(ih 0).2, if_neg (by omega)]
          rfl
        · rw [(ih k).2, if_pos ⟨hk, le_refl k⟩]
      rw [hcat, List.foldl_append]
      by_cases hik : i = k + 1
      · subst hik
        constructor
        · show Function.update _ (k + 1) _ (k + 1) = _
          rw [Function.update_same, if_pos (by omega)]
          have e1 : k + 1 - 1 = k := by omega
          rw [e1, (ih (k + 1)).1, if_neg (by omega), hbk, bP]
        · show Function.update _ (k + 1) _ (k + 1) = _
          rw [Function.update_same, if_pos (by omega)]
          have e1 : k + 1 - 1 = k := by omega
          rw [e1, (ih (k + 1)).2, if_neg (by omega), hbk, hdk, dP]
      · constructor
        · show Function.update _ (k + 1) _ i = _
          rw [Function.update_noteq hik, (ih i).1]
          by_cases hc : 1 ≤ i ∧ i ≤ k
          · rw [if_pos hc, if_pos (by omega)]
          · rw [if_neg hc, if_neg (by omega)]
        · show Function.update _ (k + 1) _ i = _
          rw [Function.update_noteq hik, (ih i).2]
          by_cases hc : 1 ≤ i ∧ i ≤ k
          · rw [if_pos hc, if_pos (by omega)]
          · rw [if_neg hc, if_neg (by omega)]

theorem thomasFwd_bP (a b c d : ℕ → α) (n : ℕ) {i : ℕ} (hi : i ≤ n - 1) :
    (thomasFwd a b c d n).1 i = bP a b c i := by
  rcases Nat.eq_zero_or_pos i with rfl | hpos
  · rw [thomasFwd, (thomasFwdAux a b c d (n - 1) 0).1, if_neg (by omega)]
    rfl
  · rw [thomasFwd, (thomasFwdAux a b c d (n - 1) i).1, if_pos ⟨hpos, hi⟩]

theorem thomasFwd_dP (a b c d : ℕ → α) (n : ℕ) {i : ℕ} (hi : i ≤ n - 1) :
    (thomasFwd a b c d n).2 i = dP a b c d i := by
  rcases Nat.eq_zero_or_pos i with rfl | hpos
  · rw [thomasFwd, (thomasFwdAux a b c d (n - 1) 0).2, if_neg (by omega)]
    rfl
  · rw [thomasFwd, (thomasFwdAux a b c d (n - 1) i).2, if_pos ⟨hpos, hi⟩]

theorem thomas_last (a b c d : ℕ → α) {n : ℕ} (hn : 1 ≤ n) :
    thomas a b c d n (n - 1) = dP a b c d (n - 1) / bP a b c (n - 1) := by
  rw [thomas]
  have h1 : n - 1 < n := by omega
  rw [if_pos h1, show n - 1 - (n - 1) = 0 by omega, backVal,
    thomasFwd_bP a b c d n (le_refl (n - 1)),
    thomasFwd_dP a b c d n (le_refl (n - 1))]

theorem thomas_rec (a b c d : ℕ → α) {n i : ℕ} (hi : i + 1 < n) :
    thomas a b c d n i =
      (dP a b c d i - c i * thomas a b c d n (i + 1)) / bP a b c i := by
  rw [thomas]
  have h1 : i < n := by omega
  rw [if_pos h1, show n - 1 - i = (n - 2 - i) + 1 by omega, backVal,
    show n - 2 - (n - 2 - i) = i by omega]
  rw [thomas, if_pos hi, show n - 1 - (i + 1) = n - 2 - i by omega,
    thomasFwd_bP a b c d n (by omega : i ≤ n - 1),
    thomasFwd_dP a b c d n (by omega : i ≤ n - 1)]

/-- Row identity of the back substitution: the pivot row equation holds at
every row, with the super-diagonal term absent on the last row. -/
theorem thomas_row (a b c d : ℕ → α) {n i : ℕ} (hi : i < n)
    (hbp : bP a b c i ≠ 0) :
    bP a b c i * thomas a b c d n i +
      (if i + 1 < n then c i * thomas a b c d n (i + 1) else 0) =
      dP a b c d i := by
  by_cases h1 : i + 1 < n
  · rw [if_pos h1, thomas_rec a b c d h1, mul_div_cancel₀ _ hbp]
    ring
  · have he : i = n - 1 := by omega
    subst he
    rw [if_neg h1, thomas_last a b c d (by omega), mul_div_cancel₀ _ hbp,
      add_zero]

end ThomasLemmas

theorem interiorIdx2_mem_iff {n m : ℕ} {q : Idx2} :
    q ∈ interiorIdx2 n m ↔ Interior2 n m q := by
  constructor
  · exact mem_interiorIdx2
  · obtain ⟨a, b⟩ := q
    intro h
    obtain ⟨h1, h2, h3, h4⟩ := h
    refine List.mem_flatMap.2 ⟨a, List.mem_range'_1.2 ⟨h1, by omega⟩, ?_⟩
    exact List.mem_map.2 ⟨b, List.mem_range'_1.2 ⟨h3, by omega⟩, rfl⟩

theorem interiorIdx3_mem_iff {nx ny nz : ℕ} {q : Idx3} :
    q ∈ interiorIdx3 nx ny nz ↔ Interior3 nx ny nz q := by
  constructor
  · exact mem_interiorIdx3
  · obtain ⟨a, b, c⟩ := q
    intro h
    obtain ⟨h1, h2, h3, h4, h5, h6⟩ := h
    dsimp only at h1 h2 h3 h4 h5 h6
    refine List.mem_flatMap.2 ⟨a, List.mem_range'_1.2 ⟨h1, by omega⟩, ?_⟩
    refine List.mem_flatMap.2 ⟨b, List.mem_range'_1.2 ⟨h3, by omega⟩, ?_⟩
    exact List.mem_map.2 ⟨c, List.mem_range'_1.2 ⟨h5, by omega⟩, rfl⟩

theorem boundary2_ne_interior {n m : ℕ} {p : Idx2} (hb : Boundary2 n m p) :
    ∀ q ∈ interiorIdx2 n m, p ≠ q := by
  intro q hq he
  rcases mem_interiorIdx2 hq with ⟨h1, h2, h3, h4⟩
  rw [← he] at h1 h2 h3 h4
  rcases hb with h | h | h | h <;> omega

theorem boundary3_ne_interior {nx ny nz : ℕ} {p : Idx3}
    (hb : Boundary3 nx ny nz p) : ∀ q ∈ interiorIdx3 nx ny nz, p ≠ q := by
  intro q hq he
  rcases mem_interiorIdx3 hq with ⟨h1, h2, h3, h4, h5, h6⟩
  rw [← he] at h1 h2 h3 h4 h5 h6
  rcases hb with h | h | h | h | h | h <;> omega

theorem foldl_invariant {σ β : Type} (f : σ → β → σ) (P : σ → Prop)
    (hP : ∀ s x, P s → P (f s x)) :
    ∀ (l : List β) (s : σ), P s → P (l.foldl f s) := by
  intro l
  induction l with
  | nil => exact fun s hs => hs
  | cons x t ih => exact fun s hs => ih (f s x) (hP s x hs)

theorem whileLoop_invariant {σ : Type} (c : σ → Prop) [DecidablePred c]
    (body : σ → σ) (P : σ → Prop) (hP : ∀ s, P s → P (body s)) :
    ∀ (f : ℕ) (s : σ), P s → P (whileLoop c body f s) := by
  intro f
  induction f with
  | zero => intro s hs; exact hs
  | succ f ih =>
      intro s hs
      rw [whileLoop]
      by_cases hcs : c s
      · rw [if_pos hcs]; exact ih (body s) (hP s hs)
      · rwa [if_neg hcs]

section Claim1Helpers

variable {α : Type} [LinearOrderedField α]

theorem body2_at {n m : ℕ} (C : Coeffs2 α) (ω : α) (s : RState Idx2 α)
    {i j : ℕ} (hin : Interior2 n m (i, j)) :
    (body2 n m C ω s).U (i, j) =
      ω * ((C.ax (i, j) * (body2 n m C ω s).U (i - 1, j) +
        C.cx (i, j) * s.U (i + 1, j) +
        C.ay (i, j) * (body2 n m C ω s).U (i, j - 1) +
        C.cy (i, j) * s.U (i, j + 1) - C.d (i, j)) / C.b (i, j)) +
        (1 - ω) * s.U (i, j) := by
  obtain ⟨h1, h2, h3, h4⟩ := hin
  dsimp only at h1 h2 h3 h4
  have hb2 : (body2 n m C ω s).U = sweep2 n m C (invB2 n m C.b) ω s.U := rfl
  rw [hb2, sweep2_at C (invB2 n m C.b) ω s.U h1 h2 h3 h4]
  have hinv : invB2 n m C.b (i, j) = 1 / C.b (i, j) := by
    simp only [invB2]
    rw [if_pos (show Interior2 n m (i, j) from ⟨h1, h2, h3, h4⟩)]
  rw [hinv]
  ring

theorem bodyL2_at {n m : ℕ} (C : Coeffs2 α) (ω : α) (s : RState Idx2 α)
    {i j : ℕ} (hin : Interior2 n m (i, j)) :
    (bodyL2 n m C ω s).U (i, j) =
      ω * ((C.ax (i, j) * (bodyL2 n m C ω s).U (i - 1, j) +
        C.cx (i, j) * s.U (i + 1, j) +
        C.ay (i, j) * (bodyL2 n m C ω s).U (i, j - 1) +
        C.cy (i, j) * s.U (i, j + 1) - C.d (i, j)) / C.b (i, j)) +
        (1 - ω) * s.U (i, j) := by
  obtain ⟨h1, h2, h3, h4⟩ := hin
  dsimp only at h1 h2 h3 h4
  have hb2 : (bodyL2 n m C ω s).U = sweep2 n m C (invFull C.b) ω s.U :=
    stepL2_fst C (invFull C.b) ω (interiorIdx2 n m) s.U 0
  rw [hb2, sweep2_at C (invFull C.b) ω s.U h1 h2 h3 h4]
  have hinv : invFull (α := α) C.b (i, j) = 1 / C.b (i, j) := rfl
  rw [hinv]
  ring

theorem body3_at {nx ny nz : ℕ} (C : Coeffs3 α) (ω : α) (s : RState Idx3 α)
    {i j k : ℕ} (hin : Interior3 nx ny nz (i, j, k)) :
    (body3 nx ny nz C ω s).U (i, j, k) =
      ω * ((C.ax (i, j, k) * (body3 nx ny nz C ω s).U (i - 1, j, k) +
        C.cx (i, j, k) * s.U (i + 1, j, k) +
        C.ay (i, j, k) * (body3 nx ny nz C ω s).U (i, j - 1, k) +
        C.cy (i, j, k) * s.U (i, j + 1, k) +
        C.az (i, j, k) * (body3 nx ny nz C ω s).U (i, j, k - 1) +
        C.cz (i, j, k) * s.U (i, j, k + 1) - C.d (i, j, k)) /
          C.b (i, j, k)) + (1 - ω) * s.U (i, j, k) := by
  obtain ⟨h1, h2, h3, h4, h5, h6⟩ := hin
  dsimp only at h1 h2 h3 h4 h5 h6
  have hb3 : (body3 nx ny nz C ω s).U =
      sweep3 nx ny nz C (invB3 nx ny nz C.b) ω s.U := rfl
  rw [hb3, sweep3_at C (invB3 nx ny nz C.b) ω s.U h1 h2 h3 h4 h5 h6]
  have hinv : invB3 nx ny nz C.b (i, j, k) = 1 / C.b (i, j, k) := by
    simp only [invB3]
    rw [if_pos (show Interior3 nx ny nz (i, j, k) from ⟨h1, h2, h3, h4, h5, h6⟩)]
  rw [hinv]
  ring

end Claim1Helpers

/-- C1: each sweep of every solver variant (`relax2d`, lab2 `relax`,
`relax3d`) updates each interior node, visited in row-major order, to
`ω·t + (1-ω)·old` with
`t = (ax·U[i-1,j] + cx·U[i+1,j] + ay·U[i,j-1] + cy·U[i,j+1] - d_rhs)/b`,
where the lower-index neighbours carry their value from the current sweep
(their final post-sweep value, as each node is written exactly once) and
the higher-index neighbours their value from before the sweep: sequential
Gauss-Seidel, not Jacobi.  The 3D variant is analogous with six
neighbours. -/
theorem C1_gauss_seidel_sweep {α : Type} [LinearOrderedField α] :
    (∀ (n m : ℕ) (C : Coeffs2 α) (ω : α) (s : RState Idx2 α) (i j : ℕ),
      Interior2 n m (i, j) → C.b (i, j) ≠ 0 →
      (body2 n m C ω s).U (i, j) =
        ω * ((C.ax (i, j) * (body2 n m C ω s).U (i - 1, j) +
          C.cx (i, j) * s.U (i + 1, j) +
          C.ay (i, j) * (body2 n m C ω s).U (i, j - 1) +
          C.cy (i, j) * s.U (i, j + 1) - C.d (i, j)) / C.b (i, j)) +
          (1 - ω) * s.U (i, j)) ∧
    (∀ (n m : ℕ) (C : Coeffs2 α) (ω : α) (s : RState Idx2 α) (i j : ℕ),
      Interior2 n m (i, j) → C.b (i, j) ≠ 0 →
      (bodyL2 n m C ω s).U (i, j) =
        ω * ((C.ax (i, j) * (bodyL2 n m C ω s).U (i - 1, j) +
          C.cx (i, j) * s.U (i + 1, j) +
          C.ay (i, j) * (bodyL2 n m C ω s).U (i, j - 1) +
          C.cy (i, j) * s.U (i, j + 1) - C.d (i, j)) / C.b (i, j)) +
          (1 - ω) * s.U (i, j)) ∧
    (∀ (nx ny nz : ℕ) (C : Coeffs3 α) (ω : α) (s : RState Idx3 α)
      (i j k : ℕ),
      Interior3 nx ny nz (i, j, k) → C.b (i, j, k) ≠ 0 →
      (body3 nx ny nz C ω s).U (i, j, k) =
        ω * ((C.ax (i, j, k) * (body3 nx ny nz C ω s).U (i - 1, j, k) +
          C.cx (i, j, k) * s.U (i + 1, j, k) +
          C.ay (i, j, k) * (body3 nx ny nz C ω s).U (i, j - 1, k) +
          C.cy (i, j, k) * s.U (i, j + 1, k) +
          C.az (i, j, k) * (body3 nx ny nz C ω s).U (i, j, k - 1) +
          C.cz (i, j, k) * s.U (i, j, k + 1) - C.d (i, j, k)) /
            C.b (i, j, k)) + (1 - ω) * s.U (i, j, k)) :=
  ⟨fun _ _ C ω s _ _ hin _ => body2_at C ω s hin,
   fun _ _ C ω s _ _ hin _ => bodyL2_at C ω s hin,
   fun _ _ _ C ω s _ _ _ hin _ => body3_at C ω s hin⟩

/-- Witness for C1 at the concrete 3×3 (and 3×3×3) fixtures. -/
theorem C1_gauss_seidel_sweep_witness :
    (Interior2 3 3 ((1, 1) : Idx2) ∧ cW2.b (1, 1) ≠ 0 ∧
      Interior3 3 3 3 ((1, 1, 1) : Idx3) ∧ cW3.b (1, 1, 1) ≠ 0) ∧
    ((body2 3 3 cW2 2 stW2).U (1, 1) =
      2 * ((cW2.ax (1, 1) * (body2 3 3 cW2 2 stW2).U (1 - 1, 1) +
        cW2.cx (1, 1) * stW2.U (1 + 1, 1) +
        cW2.ay (1, 1) * (body2 3 3 cW2 2 stW2).U (1, 1 - 1) +
        cW2.cy (1, 1) * stW2.U (1, 1 + 1) - cW2.d (1, 1)) / cW2.b (1, 1)) +
        (1 - 2) * stW2.U (1, 1)) ∧
    ((bodyL2 3 3 cW2 2 stW2).U (1, 1) =
      2 * ((cW2.ax (1, 1) * (bodyL2 3 3 cW2 2 stW2).U (1 - 1, 1) +
        cW2.cx (1, 1) * stW2.U (1 + 1, 1) +
        cW2.ay (1, 1) * (bodyL2 3 3 cW2 2 stW2).U (1, 1 - 1) +
        cW2.cy (1, 1) * stW2.U (1, 1 + 1) - cW2.d (1, 1)) / cW2.b (1, 1)) +
        (1 - 2) * stW2.U (1, 1)) ∧
    ((body3 3 3 3 cW3 2 stW3).U (1, 1, 1) =
      2 * ((cW3.ax (1, 1, 1) * (body3 3 3 3 cW3 2 stW3).U (1 - 1, 1, 1) +
        cW3.cx (1, 1, 1) * stW3.U (1 + 1, 1, 1) +
        cW3.ay (1, 1, 1) * (body3 3 3 3 cW3 2 stW3).U (1, 1 - 1, 1) +
        cW3.cy (1, 1, 1) * stW3.U (1, 1 + 1, 1) +
        cW3.az (1, 1, 1) * (body3 3 3 3 cW3 2 stW3).U (1, 1, 1 - 1) +
        cW3.cz (1, 1, 1) * stW3.U (1, 1, 1 + 1) - cW3.d (1, 1, 1)) /
          cW3.b (1, 1, 1)) + (1 - 2) * stW3.U (1, 1, 1)) :=
  ⟨⟨by decide, by norm_num [cW2], by decide, by norm_num [cW3]⟩,
   C1_gauss_seidel_sweep.1 3 3 cW2 2 stW2 1 1 (by decide)
     (by norm_num [cW2]),
   C1_gauss_seidel_sweep.2.1 3 3 cW2 2 stW2 1 1 (by decide)
     (by norm_num [cW2]),
   C1_gauss_seidel_sweep.2.2 3 3 3 cW3 2 stW3 1 1 1 (by decide)
     (by norm_num [cW3])⟩

/-- C2: the field returned by each solver variant equals the initial guess
at every boundary node (index `0` or `N-1` on any axis): no sweep ever
writes the boundary ring. -/
theorem C2_boundary_returns_initial {α : Type} [LinearOrderedField α] :
    (∀ (n m : ℕ) (C : Coeffs2 α) (ω ε : α) (maxIt : ℕ) (U0 : Idx2 → α)
      (p : Idx2), Boundary2 n m p →
      (relax2d n m C ω ε maxIt U0).U p = U0 p) ∧
    (∀ (n m : ℕ) (C : Coeffs2 α) (ω ε : α) (maxIt : ℕ) (U0 : Idx2 → α)
      (p : Idx2), Boundary2 n m p →
      (relaxL2 n m C ω ε maxIt U0).U p = U0 p) ∧
    (∀ (nx ny nz : ℕ) (C : Coeffs3 α) (ω ε : α) (maxIt minIt : ℕ)
      (U0 : Idx3 → α) (p : Idx3), Boundary3 nx ny nz p →
      (relax3d nx ny nz C ω ε maxIt minIt U0).U p = U0 p) := by
  refine ⟨?_, ?_, ?_⟩
  · intro n m C ω ε maxIt U0 p hb
    refine whileLoop_invariant (cond2 ε maxIt) (body2 n m C ω)
      (fun s => s.U p = U0 p) ?_ _ _ rfl
    intro s hs
    show sweep2 n m C (invB2 n m C.b) ω s.U p = U0 p
    rw [← hs]
    exact foldl_update_untouched (newVal2 C (invB2 n m C.b) ω) _ s.U p
      (boundary2_ne_interior hb)
  · intro n m C ω ε maxIt U0 p hb
    refine whileLoop_invariant (condL2 ε maxIt) (bodyL2 n m C ω)
      (fun s => s.U p = U0 p) ?_ _ _ rfl
    intro s hs
    have h1 : (bodyL2 n m C ω s).U = sweep2 n m C (invFull C.b) ω s.U :=
      stepL2_fst C (invFull C.b) ω (interiorIdx2 n m) s.U 0
    show (bodyL2 n m C ω s).U p = U0 p
    rw [h1, ← hs]
    exact foldl_update_untouched (newVal2 C (invFull C.b) ω) _ s.U p
      (boundary2_ne_interior hb)
  · intro nx ny nz C ω ε maxIt minIt U0 p hb
    refine whileLoop_invariant (cond3 ε maxIt minIt) (body3 nx ny nz C ω)
      (fun s => s.U p = U0 p) ?_ _ _ rfl
    intro s hs
    show sweep3 nx ny nz C (invB3 nx ny nz C.b) ω s.U p = U0 p
    rw [← hs]
    exact foldl_update_untouched (newVal3 C (invB3 nx ny nz C.b) ω) _ s.U p
      (boundary3_ne_interior hb)

/-- Witness for C2 at concrete boundary nodes of the 3×3 fixtures. -/
theorem C2_boundary_returns_initial_witness :
    (Boundary2 3 3 ((0, 1) : Idx2) ∧ Boundary3 3 3 3 ((2, 1, 1) : Idx3)) ∧
    (relax2d 3 3 cW2 2 (1 / 10) 5 uW2).U (0, 1) = uW2 (0, 1) ∧
    (relaxL2 3 3 cW2 2 (1 / 10) 5 uW2).U (0, 1) = uW2 (0, 1) ∧
    (relax3d 3 3 3 cW3 2 (1 / 10) 5 2 uW3).U (2, 1, 1) = uW3 (2, 1, 1) :=
  ⟨⟨by decide, by decide⟩,
   C2_boundary_returns_initial.1 3 3 cW2 2 (1 / 10) 5 uW2 (0, 1) (by decide),
   C2_boundary_returns_initial.2.1 3 3 cW2 2 (1 / 10) 5 uW2 (0, 1)
     (by decide),
   C2_boundary_returns_initial.2.2 3 3 3 cW3 2 (1 / 10) 5 2 uW3 (2, 1, 1)
     (by decide)⟩

theorem loop_stop_iff {α : Type} [LinearOrderedField α] {ε err : α}
    {it maxIt minIt : ℕ} (hmin : minIt ≤ maxIt) (hit : it ≤ maxIt) :
    ¬((ε < err ∧ it < maxIt) ∨ it < minIt) ↔
      ((err ≤ ε ∧ minIt ≤ it) ∨ it = maxIt) := by
  constructor
  · intro h
    push_neg at h
    obtain ⟨h1, h2⟩ := h
    by_cases hP : ε < err
    · right
      have := h1 hP
      omega
    · exact Or.inl ⟨not_lt.1 hP, h2⟩
  · intro h
    rcases h with ⟨he, hm⟩ | hmx
    · push_neg
      exact ⟨fun hP => absurd hP (not_lt.2 he), hm⟩
    · push_neg
      subst hmx
      exact ⟨fun _ => le_refl it, hmin⟩

theorem loop_stop_iff0 {α : Type} [LinearOrderedField α] {ε err : α}
    {it maxIt : ℕ} (hit : it ≤ maxIt) :
    ¬(ε < err ∧ it < maxIt) ↔ (err ≤ ε ∨ it = maxIt) := by
  constructor
  · intro h
    push_neg at h
    by_cases hP : ε < err
    · right
      have := h hP
      omega
    · exact Or.inl (not_lt.1 hP)
  · intro h hc
    rcases h with he | hmx
    · exact absurd hc.1 (not_lt.2 he)
    · omega

/-- C3: each solver's sweep loop terminates, never performs more than
`max_iter` sweeps, and stops exactly when
`(error ≤ ε and iterations ≥ min_iter) or iterations = max_iter`
(`min_iter` is the literal `100` in `relax2d`, a parameter in `relax3d`,
and absent, i.e. `0`, in lab2's `relax`), provided `min_iter ≤ max_iter`.
Termination is expressed by the guard being false at the returned state:
the fuelled model provably runs the loop to completion. -/
theorem C3_loop_termination {α : Type} [LinearOrderedField α] :
    (∀ (n m : ℕ) (C : Coeffs2 α) (ω ε : α) (maxIt : ℕ) (U0 : Idx2 → α),
      100 ≤ maxIt →
      (relax2d n m C ω ε maxIt U0).it ≤ maxIt ∧
      ¬ cond2 ε maxIt (relax2d n m C ω ε maxIt U0) ∧
      (((relax2d n m C ω ε maxIt U0).err ≤ ε ∧
        100 ≤ (relax2d n m C ω ε maxIt U0).it) ∨
        (relax2d n m C ω ε maxIt U0).it = maxIt) ∧
      (∀ s : RState Idx2 α, s.it ≤ maxIt → (¬ cond2 ε maxIt s ↔
        ((s.err ≤ ε ∧ 100 ≤ s.it) ∨ s.it = maxIt)))) ∧
    (∀ (n m : ℕ) (C : Coeffs2 α) (ω ε : α) (maxIt : ℕ) (U0 : Idx2 → α),
      (relaxL2 n m C ω ε maxIt U0).it ≤ maxIt ∧
      ¬ condL2 ε maxIt (relaxL2 n m C ω ε maxIt U0) ∧
      ((relaxL2 n m C ω ε maxIt U0).err ≤ ε ∨
        (relaxL2 n m C ω ε maxIt U0).it = maxIt) ∧
      (∀ s : RState Idx2 α, s.it ≤ maxIt → (¬ condL2 ε maxIt s ↔
        (s.err ≤ ε ∨ s.it = maxIt)))) ∧
    (∀ (nx ny nz : ℕ) (C : Coeffs3 α) (ω ε : α) (maxIt minIt : ℕ)
      (U0 : Idx3 → α), minIt ≤ maxIt →
      (relax3d nx ny nz C ω ε maxIt minIt U0).it ≤ maxIt ∧
      ¬ cond3 ε maxIt minIt (relax3d nx ny nz C ω ε maxIt minIt U0) ∧
      (((relax3d nx ny nz C ω ε maxIt minIt U0).err ≤ ε ∧
        minIt ≤ (relax3d nx ny nz C ω ε maxIt minIt U0).it) ∨
        (relax3d nx ny nz C ω ε maxIt minIt U0).it = maxIt) ∧
      (∀ s : RState Idx3 α, s.it ≤ maxIt → (¬ cond3 ε maxIt minIt s ↔
        ((s.err ≤ ε ∧ minIt ≤ s.it) ∨ s.it = maxIt)))) := by
  refine ⟨?_, ?_, ?_⟩
  · intro n m C ω ε maxIt U0 h100
    have hit : ∀ s : RState Idx2 α, (body2 n m C ω s).it = s.it + 1 :=
      fun _ => rfl
    have hc : ∀ s : RState Idx2 α, cond2 ε maxIt s → s.it < maxIt := by
      intro s hs
      rcases hs with ⟨_, h⟩ | h
      · exact h
      · omega
    have hstop := whileLoop_stop (cond2 ε maxIt) (body2 n m C ω)
      (fun s => s.it) hit maxIt hc (maxIt + 101) ⟨U0, 1, 0⟩
      (show maxIt ≤ 0 + (maxIt + 101) by omega)
    have hle := whileLoop_it_le (cond2 ε maxIt) (body2 n m C ω)
      (fun s => s.it) hit maxIt hc (maxIt + 101) ⟨U0, 1, 0⟩
      (show 0 ≤ maxIt by omega)
    exact ⟨hle, hstop, (loop_stop_iff h100 hle).1 hstop,
      fun s hs => loop_stop_iff h100 hs⟩
  · intro n m C ω ε maxIt U0
    have hit : ∀ s : RState Idx2 α, (bodyL2 n m C ω s).it = s.it + 1 :=
      fun _ => rfl
    have hc : ∀ s : RState Idx2 α, condL2 ε maxIt s → s.it < maxIt :=
      fun s hs => hs.2
    have hstop := whileLoop_stop (condL2 ε maxIt) (bodyL2 n m C ω)
      (fun s => s.it) hit maxIt hc (maxIt + 1) ⟨U0, 1, 0⟩
      (show maxIt ≤ 0 + (maxIt + 1) by omega)
    have hle := whileLoop_it_le (condL2 ε maxIt) (bodyL2 n m C ω)
      (fun s => s.it) hit maxIt hc (maxIt + 1) ⟨U0, 1, 0⟩
      (show 0 ≤ maxIt by omega)
    exact ⟨hle, hstop, (loop_stop_iff0 hle).1 hstop,
      fun s hs => loop_stop_iff0 hs⟩
  · intro nx ny nz C ω ε maxIt minIt U0 hmin
    have hit : ∀ s : RState Idx3 α, (body3 nx ny nz C ω s).it = s.it + 1 :=
      fun _ => rfl
    have hc : ∀ s : RState Idx3 α, cond3 ε maxIt minIt s →
        s.it < maxIt := by
      intro s hs
      rcases hs with ⟨_, h⟩ | h
      · exact h
      · omega
    have hstop := whileLoop_stop (cond3 ε maxIt minIt) (body3 nx ny nz C ω)
      (fun s => s.it) hit maxIt hc (maxIt + minIt + 1) ⟨U0, 1, 0⟩
      (show maxIt ≤ 0 + (maxIt + minIt + 1) by omega)
    have hle := whileLoop_it_le (cond3 ε maxIt minIt) (body3 nx ny nz C ω)
      (fun s => s.it) hit maxIt hc (maxIt + minIt + 1) ⟨U0, 1, 0⟩
      (show 0 ≤ maxIt by omega)
    exact ⟨hle, hstop, (loop_stop_iff hmin hle).1 hstop,
      fun s hs => loop_stop_iff hmin hs⟩

/-- Witness for C3 at the concrete fixtures (`max_iter = 100` for
`relax2d`, whose minimum floor is the literal `100`). -/
theorem C3_loop_termination_witness :
    ((100 : ℕ) ≤ 100 ∧ (2 : ℕ) ≤ 5) ∧
    (relax2d 3 3 cW2 2 (1 / 10) 100 uW2).it ≤ 100 ∧
    (relaxL2 3 3 cW2 2 (1 / 10) 5 uW2).it ≤ 5 ∧
    (relax3d 3 3 3 cW3 2 (1 / 10) 5 2 uW3).it ≤ 5 :=
  ⟨⟨by decide, by decide⟩,
   (C3_loop_termination.1 3 3 cW2 2 (1 / 10) 100 uW2 (by decide)).1,
   (C3_loop_termination.2.1 3 3 cW2 2 (1 / 10) 5 uW2).1,
   (C3_loop_termination.2.2 3 3 3 cW3 2 (1 / 10) 5 2 uW3 (by decide)).1⟩

/-- Counterexample for C4 as frozen: in the lab2 `relax` variant the error
compared against `eps` after a sweep is the in-sweep deviation
`max |U[i,j] - t|`, not the pre-sweep-snapshot max-norm
`max |new - old|`.  On the 3×3 fixture with `ω = 2` the sweep's single
interior node has `t = 4` and moves from `0` to `8`, so lab2's error is
`4` while the snapshot max-norm is `8`. -/
theorem C4_error_metric_counterexample :
    (bodyL2 3 3 cW2 2 stW2).err ≠
      errAcc2 3 3 (bodyL2 3 3 cW2 2 stW2).U stW2.U ∧
    (bodyL2 3 3 cW2 2 stW2).err = 4 ∧
    errAcc2 3 3 (bodyL2 3 3 cW2 2 stW2).U stW2.U = 8 := by
  refine ⟨?_, ?_, ?_⟩ <;>
    norm_num +decide [bodyL2, stepL2, gsT2, invFull, errAcc2, upd2, newVal2,
      interiorIdx2, row2, List.range', Function.update, cW2, uW2, stW2]

/-- C4 amended: `relax2d` and `relax3d` use the pre-sweep-snapshot
max-norm over interior nodes (the accumulated error is that snapshot
metric: an upper bound on every interior `|new - old|`, attained at some
interior node unless zero), while lab2's `relax` accumulates the in-sweep
deviation `|U[i,j] - t|` before each update, which equals the
pre-sweep-snapshot max-norm divided by `ω` (for `ω > 0`). -/
theorem C4_error_metric_amended {α : Type} [LinearOrderedField α] :
    (∀ (n m : ℕ) (C : Coeffs2 α) (ω : α) (s : RState Idx2 α),
      (body2 n m C ω s).err = errAcc2 n m (body2 n m C ω s).U s.U ∧
      (∀ p : Idx2, Interior2 n m p →
        |(body2 n m C ω s).U p - s.U p| ≤ (body2 n m C ω s).err) ∧
      ((body2 n m C ω s).err = 0 ∨ ∃ p : Idx2, Interior2 n m p ∧
        (body2 n m C ω s).err = |(body2 n m C ω s).U p - s.U p|)) ∧
    (∀ (nx ny nz : ℕ) (C : Coeffs3 α) (ω : α) (s : RState Idx3 α),
      (body3 nx ny nz C ω s).err =
        errAcc3 nx ny nz (body3 nx ny nz C ω s).U s.U ∧
      (∀ p : Idx3, Interior3 nx ny nz p →
        |(body3 nx ny nz C ω s).U p - s.U p| ≤ (body3 nx ny nz C ω s).err) ∧
      ((body3 nx ny nz C ω s).err = 0 ∨ ∃ p : Idx3, Interior3 nx ny nz p ∧
        (body3 nx ny nz C ω s).err =
          |(body3 nx ny nz C ω s).U p - s.U p|)) ∧
    (∀ (n m : ℕ) (C : Coeffs2 α) (ω : α), 0 < ω →
      ∀ s : RState Idx2 α,
      (bodyL2 n m C ω s).err * ω =
        errAcc2 n m (bodyL2 n m C ω s).U s.U) := by
  refine ⟨?_, ?_, ?_⟩
  · intro n m C ω s
    obtain ⟨hb1, hb2, hb3⟩ := foldl_max_bounds
      (fun p => |(body2 n m C ω s).U p - s.U p|) (interiorIdx2 n m) 0
    refine ⟨rfl, fun p hp => hb2 p (interiorIdx2_mem_iff.2 hp), ?_⟩
    rcases hb3 with h | ⟨p, hp, h⟩
    · exact Or.inl h
    · exact Or.inr ⟨p, mem_interiorIdx2 hp, h⟩
  · intro nx ny nz C ω s
    obtain ⟨hb1, hb2, hb3⟩ := foldl_max_bounds
      (fun p => |(body3 nx ny nz C ω s).U p - s.U p|)
      (interiorIdx3 nx ny nz) 0
    refine ⟨rfl, fun p hp => hb2 p (interiorIdx3_mem_iff.2 hp), ?_⟩
    rcases hb3 with h | ⟨p, hp, h⟩
    · exact Or.inl h
    · exact Or.inr ⟨p, mem_interiorIdx3 hp, h⟩
  · intro n m C ω hω s
    have hU : (bodyL2 n m C ω s).U =
        (interiorIdx2 n m).foldl (upd2 C (invFull C.b) ω) s.U :=
      stepL2_fst C (invFull C.b) ω (interiorIdx2 n m) s.U 0
    have herr : (bodyL2 n m C ω s).err =
        ((interiorIdx2 n m).foldl (stepL2 C (invFull C.b) ω)
          (s.U, 0)).2 := rfl
    rw [herr, hU,
      stepL2_err C (invFull C.b) hω (interiorIdx2 n m)
        (nodup_interiorIdx2 n m) s.U 0, zero_mul]
    rfl

/-- Witness for C4's amended statement at the concrete fixtures. -/
theorem C4_error_metric_amended_witness :
    ((0 : ℚ) < 2) ∧
    (body2 3 3 cW2 2 stW2).err =
      errAcc2 3 3 (body2 3 3 cW2 2 stW2).U stW2.U ∧
    (body3 3 3 3 cW3 2 stW3).err =
      errAcc3 3 3 3 (body3 3 3 3 cW3 2 stW3).U stW3.U ∧
    (bodyL2 3 3 cW2 2 stW2).err * 2 =
      errAcc2 3 3 (bodyL2 3 3 cW2 2 stW2).U stW2.U :=
  ⟨by norm_num,
   (C4_error_metric_amended.1 3 3 cW2 2 stW2).1,
   (C4_error_metric_amended.2.1 3 3 3 cW3 2 stW3).1,
   C4_error_metric_amended.2.2 3 3 cW2 2 (by norm_num) stW2⟩

/-- Counterexample for C5 as frozen: lab2's `relax` computes
`inv_b = 1.0 / b` over the whole array, so it does take the reciprocal of
`b` at boundary index `(0,0)` (here `b = 5` everywhere and the computed
entry is `1/5 ≠ 0`), unlike `relax2d`'s interior-only inversion, whose
boundary entries stay `0`. -/
theorem C5_inversion_counterexample :
    invFull (fun _ => (5 : ℚ)) ((0, 0) : Idx2) = 1 / 5 ∧
    invFull (fun _ => (5 : ℚ)) ((0, 0) : Idx2) ≠ 0 ∧
    invB2 3 3 (fun _ => (5 : ℚ)) ((0, 0) : Idx2) = 0 :=
  ⟨rfl, by norm_num [invFull], by norm_num +decide [invB2, Interior2]⟩

/-- C5 amended: `relax2d` and `relax3d` invert the diagonal on the
interior sub-block only — boundary entries of `inv_b` are identically `0`
whatever `b` holds there, and on interior nodes with nonzero `b` the
entry is a true reciprocal — so zero boundary diagonals are tolerated in
those variants; lab2's `relax` instead inverts the entire array, boundary
indices `0` and `N-1` included (a zero boundary entry of `b` is divided
by there), although its sweep reads `inv_b` at interior nodes only, so
the two inversions drive identical sweeps. -/
theorem C5_interior_inversion_amended {α : Type} [LinearOrderedField α] :
    (∀ (n m : ℕ) (b : Idx2 → α) (p : Idx2), ¬ Interior2 n m p →
      invB2 n m b p = 0) ∧
    (∀ (nx ny nz : ℕ) (b : Idx3 → α) (p : Idx3), ¬ Interior3 nx ny nz p →
      invB3 nx ny nz b p = 0) ∧
    (∀ (n m : ℕ) (b : Idx2 → α) (p : Idx2), Interior2 n m p → b p ≠ 0 →
      invB2 n m b p * b p = 1) ∧
    (∀ (b : Idx2 → α) (p : Idx2), b p ≠ 0 → invFull b p * b p = 1) ∧
    (∀ (n m : ℕ) (C : Coeffs2 α) (ω : α) (U : Idx2 → α),
      sweep2 n m C (invB2 n m C.b) ω U = sweep2 n m C (invFull C.b) ω U) := by
  refine ⟨?_, ?_, ?_, ?_, ?_⟩
  · intro n m b p h
    simp only [invB2]
    rw [if_neg h]
  · intro nx ny nz b p h
    simp only [invB3]
    rw [if_neg h]
  · intro n m b p h hb
    simp only [invB2]
    rw [if_pos h]
    exact one_div_mul_cancel hb
  · intro b p hb
    exact one_div_mul_cancel hb
  · intro n m C ω U
    refine foldl_upd2_inv_congr C (invB2 n m C.b) (invFull C.b) ω
      (interiorIdx2 n m) U (fun p hp => ?_)
    simp only [invB2, invFull]
    rw [if_pos (mem_interiorIdx2 hp)]

/-- Witness for C5's amended statement at the concrete fixtures. -/
theorem C5_interior_inversion_amended_witness :
    (¬ Interior2 3 3 ((0, 0) : Idx2) ∧ ¬ Interior3 3 3 3 ((0, 1, 1) : Idx3) ∧
      Interior2 3 3 ((1, 1) : Idx2) ∧ cW2.b (1, 1) ≠ 0) ∧
    invB2 3 3 cW2.b (0, 0) = 0 ∧
    invB3 3 3 3 cW3.b (0, 1, 1) = 0 ∧
    invB2 3 3 cW2.b (1, 1) * cW2.b (1, 1) = 1 ∧
    invFull cW2.b (0, 0) * cW2.b (0, 0) = 1 ∧
    sweep2 3 3 cW2 (invB2 3 3 cW2.b) 2 uW2 =
      sweep2 3 3 cW2 (invFull cW2.b) 2 uW2 :=
  ⟨⟨by decide, by decide, by decide, by norm_num [cW2]⟩,
   C5_interior_inversion_amended.1 3 3 cW2.b (0, 0) (by decide),
   C5_interior_inversion_amended.2.1 3 3 3 cW3.b (0, 1, 1) (by decide),
   C5_interior_inversion_amended.2.2.1 3 3 cW2.b (1, 1) (by decide)
     (by norm_num [cW2]),
   C5_interior_inversion_amended.2.2.2.1 cW2.b (0, 0) (by norm_num [cW2]),
   C5_interior_inversion_amended.2.2.2.2 3 3 cW2 2 uW2⟩

/-- Counterexample for C6 as frozen: at time step `1` of the
`FREE_CENTER` experiment the prescribed source value is strictly
positive, yet the field holding its negation at the source node satisfies
the solver's stencil equation (`Σ coeff·neighbour − b·U = rhs`) there —
the isolated row `0·neighbours − 1·U = rhs` pins the solved value to
`−rhs`, not to the prescribed `rhs`. -/
theorem C6_source_pinning_counterexample :
    0 < srcV1 ∧
    stencilEq2 (setSources 1 zeroC2 cfgFC) vNeg (50, 50) ∧
    vNeg (50, 50) ≠ (setSources 1 zeroC2 cfgFC).d (50, 50) := by
  have h0 : 0 < srcV1 := by
    have hs : 0 < Real.sin (Real.pi * 4 * (1 : ℕ) * 1e-2) := by
      apply Real.sin_pos_of_pos_of_lt_pi
      · have := Real.pi_pos
        push_cast
        nlinarith
      · have := Real.pi_pos
        push_cast
        nlinarith
    simp only [srcV1, sourceValue, cfgFC, baseConfig]
    positivity
  have hS : setSources 1 zeroC2 cfgFC =
      pinNode zeroC2 (cfgFC.nx / 2, cfgFC.ny / 2) (sourceValue cfgFC 1) := by
    simp only [setSources, cfgFC, baseConfig]
  have hctr : (cfgFC.nx / 2, cfgFC.ny / 2) = ((50, 50) : Idx2) := by
    simp only [cfgFC, baseConfig]
  refine ⟨h0, ?_, ?_⟩
  · rw [hS, hctr]
    simp only [stencilEq2, pinNode, Function.update_same, vNeg, srcV1]
    ring
  · rw [hS, hctr]
    simp only [pinNode, Function.update_same, vNeg, srcV1]
    intro h
    simp only [srcV1] at h0
    linarith

/-- C6 amended: for every time step `k` of a centre-source experiment,
`set_sources` overrides the source node's row to `b = 1`, all four
neighbour coefficients `0`, and
`rhs = amplitude·sin(π·frequency_k·k·dt)` — exactly as claimed — but
under the solver's stencil equation
`Σ coeff·neighbour − b·U = rhs` the isolated row pins the solved value at
the source node to the NEGATION of the prescribed value:
`U = −amplitude·sin(π·frequency_k·k·dt)` is its unique solution. -/
theorem C6_source_pinning_amended (cfg : Config) (k : ℕ) (C : Coeffs2 ℝ)
    (he : cfg.experiment_type = ExperimentType.FREE_CENTER ∨
      cfg.experiment_type = ExperimentType.CLAMPED_CENTER) :
    (setSources k C cfg).b (cfg.nx / 2, cfg.ny / 2) = 1 ∧
    (setSources k C cfg).ax (cfg.nx / 2, cfg.ny / 2) = 0 ∧
    (setSources k C cfg).cx (cfg.nx / 2, cfg.ny / 2) = 0 ∧
    (setSources k C cfg).ay (cfg.nx / 2, cfg.ny / 2) = 0 ∧
    (setSources k C cfg).cy (cfg.nx / 2, cfg.ny / 2) = 0 ∧
    (setSources k C cfg).d (cfg.nx / 2, cfg.ny / 2) = sourceValue cfg k ∧
    (∀ U : Idx2 → ℝ,
      stencilEq2 (setSources k C cfg) U (cfg.nx / 2, cfg.ny / 2) ↔
        U (cfg.nx / 2, cfg.ny / 2) = -(sourceValue cfg k)) := by
  have hS : setSources k C cfg =
      pinNode C (cfg.nx / 2, cfg.ny / 2) (sourceValue cfg k) := by
    rcases he with h | h <;> simp only [setSources, h]
  rw [hS]
  refine ⟨by simp [pinNode], by simp [pinNode], by simp [pinNode],
    by simp [pinNode], by simp [pinNode], by simp [pinNode], ?_⟩
  intro U
  simp only [stencilEq2, pinNode, Function.update_same]
  constructor <;> intro h <;> linarith

/-- Witness for C6's amended statement at the fixture configuration. -/
theorem C6_source_pinning_amended_witness :
    (cfgFC.experiment_type = ExperimentType.FREE_CENTER ∨
      cfgFC.experiment_type = ExperimentType.CLAMPED_CENTER) ∧
    (setSources 1 zeroC2 cfgFC).b (cfgFC.nx / 2, cfgFC.ny / 2) = 1 ∧
    (setSources 1 zeroC2 cfgFC).d (cfgFC.nx / 2, cfgFC.ny / 2) =
      sourceValue cfgFC 1 :=
  ⟨Or.inl rfl,
   (C6_source_pinning_amended cfgFC 1 zeroC2 (Or.inl rfl)).1,
   (C6_source_pinning_amended cfgFC 1 zeroC2 (Or.inl rfl)).2.2.2.2.2.1⟩

/-- C7 (code evaluated at the failing input): nothing rejects
`min_iterations > max_iterations`.  The configuration layer has no
minimum-iteration entry at all and accepts every known experiment type
unconditionally, and `relax3d` invoked with `min_iter > max_iter` simply
runs `min_iter` sweeps — overshooting `max_iter` with no error — instead
of being rejected before any step. -/
theorem C7_min_over_max_runs {α : Type} [LinearOrderedField α] :
    (∀ (nx ny nz : ℕ) (C : Coeffs3 α) (ω ε : α) (maxIt minIt : ℕ)
      (U0 : Idx3 → α), maxIt < minIt →
      (relax3d nx ny nz C ω ε maxIt minIt U0).it = minIt) ∧
    getConfig "FREE_CENTER" =
      Except.ok (baseConfig ExperimentType.FREE_CENTER BC.neumann) := by
  constructor
  · intro nx ny nz C ω ε maxIt minIt U0 hlt
    have hit : ∀ s : RState Idx3 α, (body3 nx ny nz C ω s).it = s.it + 1 :=
      fun _ => rfl
    have hiff : ∀ s : RState Idx3 α,
        cond3 ε maxIt minIt s ↔ s.it < minIt := by
      intro s
      constructor
      · intro h
        rcases h with ⟨_, h⟩ | h
        · omega
        · exact h
      · exact fun h => Or.inr h
    exact whileLoop_exact (cond3 ε maxIt minIt) (body3 nx ny nz C ω)
      (fun s => s.it) hit minIt hiff (maxIt + minIt + 1) ⟨U0, 1, 0⟩
      (show 0 ≤ minIt by omega) (show minIt ≤ 0 + (maxIt + minIt + 1) by omega)
  · rfl

/-- Witness for C7 at the failing input `max_iter = 1 < min_iter = 3`:
the solver runs and performs `3` sweeps. -/
theorem C7_min_over_max_runs_witness :
    ((1 : ℕ) < 3) ∧ (relax3d 3 3 3 cW3 2 (1 / 10) 1 3 uW3).it = 3 ∧
    getConfig "FREE_CENTER" =
      Except.ok (baseConfig ExperimentType.FREE_CENTER BC.neumann) :=
  ⟨by decide,
   C7_min_over_max_runs.1 3 3 3 cW3 2 (1 / 10) 1 3 uW3 (by decide),
   (C7_min_over_max_runs (α := ℚ)).2⟩

/-- C8: for every tridiagonal system whose forward-elimination pivots
(the eliminated diagonal entries, by which the algorithm divides) are all
nonzero, the vector returned by `thomas` satisfies the original
equations `a[i]·y[i-1] + b[i]·y[i] + c[i]·y[i+1] = d[i]` at every row,
with the out-of-range terms absent, in exact arithmetic. -/
theorem C8_thomas_roundtrip {α : Type} [LinearOrderedField α]
    (a b c d : ℕ → α) (n : ℕ) (hn : 1 ≤ n)
    (hpiv : ∀ i, i < n → (thomasFwd a b c d n).1 i ≠ 0) :
    ∀ i, i < n →
      (if 1 ≤ i then a i * thomas a b c d n (i - 1) else 0) +
        b i * thomas a b c d n i +
        (if i + 1 < n then c i * thomas a b c d n (i + 1) else 0) = d i := by
  have hbp : ∀ i, i < n → bP a b c i ≠ 0 := by
    intro i hi
    have h := hpiv i hi
    rwa [thomasFwd_bP a b c d n (by omega : i ≤ n - 1)] at h
  intro i hi
  rcases Nat.eq_zero_or_pos i with rfl | hpos
  · rw [if_neg (by omega)]
    have hrow := thomas_row a b c d hi (hbp 0 hi)
    have hb0 : bP a b c 0 = b 0 := rfl
    have hd0 : dP a b c d 0 = d 0 := rfl
    rw [hb0, hd0] at hrow
    rw [zero_add]
    exact hrow
  · obtain ⟨i', rfl⟩ : ∃ i', i = i' + 1 := ⟨i - 1, by omega⟩
    rw [if_pos (by omega), show i' + 1 - 1 = i' by omega]
    have hrow := thomas_row a b c d hi (hbp (i' + 1) hi)
    have hrow' := thomas_row a b c d (show i' < n by omega)
      (hbp i' (by omega))
    rw [if_pos (show i' + 1 < n from hi)] at hrow'
    simp only [bP, dP] at hrow
    have hw : a (i' + 1) / bP a b c i' * bP a b c i' = a (i' + 1) :=
      div_mul_cancel₀ _ (hbp i' (by omega))
    linear_combination hrow + (a (i' + 1) / bP a b c i') * hrow' -
      thomas a b c d n i' * hw

/-- Witness for C8 on the diagonally dominant system
`a = (_,1,1), b = 4, c = 1, d = (1,2,3)` of size `3`: the pivots
`4, 15/4, 56/15` are nonzero, and the middle row substitutes back. -/
theorem C8_thomas_roundtrip_witness :
    ((1 : ℕ) ≤ 3 ∧ (∀ i, i < 3 → (thomasFwd aW bW cWt dW 3).1 i ≠ 0)) ∧
    ((if 1 ≤ 1 then aW 1 * thomas aW bW cWt dW 3 (1 - 1) else 0) +
      bW 1 * thomas aW bW cWt dW 3 1 +
      (if 1 + 1 < 3 then cWt 1 * thomas aW bW cWt dW 3 (1 + 1) else 0) =
      dW 1) := by
  have hpiv : ∀ i, i < 3 → (thomasFwd aW bW cWt dW 3).1 i ≠ 0 := by
    intro i hi
    interval_cases i <;>
      norm_num [thomasFwd, thomasFwdStep, List.range', Function.update,
        aW, bW, cWt, dW]
  exact ⟨⟨by decide, hpiv⟩,
    C8_thomas_roundtrip aW bW cWt dW 3 (by decide) hpiv 1 (by decide)⟩

theorem dirichletZero_boundary (nx ny : ℕ) (V : Idx2 → ℝ) (p : Idx2)
    (hb : Boundary2 nx ny p) : dirichletZero nx ny V p = 0 := by
  unfold dirichletZero
  exact if_pos hb

theorem simStep_frames_dirichlet (cfg : Config) (hx hy : ℝ) (st : SimState)
    (k : ℕ) (h : cfg.boundary_condition = BC.dirichlet) :
    ∃ V : Idx2 → ℝ, (simStep cfg hx hy st k).frames =
      st.frames ++ [dirichletZero cfg.nx cfg.ny V] := by
  unfold simStep
  rw [h]
  exact ⟨_, rfl⟩

theorem simStep_frames_length (cfg : Config) (hx hy : ℝ) (st : SimState)
    (k : ℕ) :
    (simStep cfg hx hy st k).frames.length = st.frames.length + 1 := by
  unfold simStep
  cases hbc : cfg.boundary_condition <;> simp

theorem simFold_length (cfg : Config) (hx hy : ℝ) :
    ∀ (l : List ℕ) (st : SimState),
      ((l.foldl (simStep cfg hx hy) st).frames).length =
        st.frames.length + l.length := by
  intro l
  induction l with
  | nil => intro st; rfl
  | cons x t ih =>
      intro st
      rw [List.foldl_cons, ih, simStep_frames_length]
      simp [Nat.add_assoc, Nat.add_comm 1 t.length]

/-- C9: under the fixed-edge (`dirichlet`) boundary condition, every
field appended to the history stack by the simulation driver is exactly
zero at every boundary node, and the stack holds one frame per time
step. -/
theorem C9_dirichlet_frames_boundary_zero (cfg : Config)
    (h : cfg.boundary_condition = BC.dirichlet) :
    (∀ F ∈ (runSimulation cfg).frames, ∀ p : Idx2,
      Boundary2 cfg.nx cfg.ny p → F p = 0) ∧
    (runSimulation cfg).frames.length = cfg.max_steps := by
  unfold runSimulation
  constructor
  · refine foldl_invariant (simStep cfg _ _)
      (fun st => ∀ F ∈ st.frames, ∀ p : Idx2,
        Boundary2 cfg.nx cfg.ny p → F p = 0) ?_ _ _ (by simp)
    intro st k hst F hF p hb
    obtain ⟨V, hV⟩ := simStep_frames_dirichlet cfg _ _ st k h
    rw [hV] at hF
    rcases List.mem_append.1 hF with hF | hF
    · exact hst F hF p hb
    · rw [List.mem_singleton.1 hF]
      exact dirichletZero_boundary _ _ V p hb
  · rw [simFold_length]
    simp [List.length_range']

/-- Witness for C9 at the `CLAMPED_CENTER` configuration produced by
`get_config`, whose boundary condition is `dirichlet`. -/
theorem C9_dirichlet_frames_boundary_zero_witness :
    (baseConfig ExperimentType.CLAMPED_CENTER BC.dirichlet).boundary_condition
      = BC.dirichlet ∧
    (runSimulation
      (baseConfig ExperimentType.CLAMPED_CENTER BC.dirichlet)).frames.length =
      (baseConfig ExperimentType.CLAMPED_CENTER BC.dirichlet).max_steps :=
  ⟨rfl,
   (C9_dirichlet_frames_boundary_zero
     (baseConfig ExperimentType.CLAMPED_CENTER BC.dirichlet) rfl).2⟩

/-- C10: `thomas` mutates the caller's diagonal and right-hand-side
arrays in place: after the forward sweep, for every row `1 ≤ i < n` the
caller's `b[i]` and `d[i]` hold the elimination results
`b[i] - w·c[i-1]` and `d[i] - w·d[i-1]` (with `w = a[i]/b[i-1]` read from
the already-eliminated diagonal), while entries outside `1..n-1` are
untouched.  The arrays `a` and `c` are only ever read by the loop — in
this embedding they are not part of the mutable state at all — and the
solution is returned as a separate, freshly allocated vector. -/
theorem C10_thomas_inplace_mutation {α : Type} [LinearOrderedField α]
    (a b c d : ℕ → α) (n : ℕ) :
    (∀ i, 1 ≤ i → i < n →
      (thomasFwd a b c d n).1 i =
        b i - a i / (thomasFwd a b c d n).1 (i - 1) * c (i - 1) ∧
      (thomasFwd a b c d n).2 i =
        d i - a i / (thomasFwd a b c d n).1 (i - 1) *
          (thomasFwd a b c d n).2 (i - 1)) ∧
    (∀ i, i = 0 ∨ n ≤ i →
      (thomasFwd a b c d n).1 i = b i ∧
      (thomasFwd a b c d n).2 i = d i) := by
  constructor
  · intro i h1 h2
    obtain ⟨i', rfl⟩ : ∃ i', i = i' + 1 := ⟨i - 1, by omega⟩
    rw [show i' + 1 - 1 = i' by omega,
      thomasFwd_bP a b c d n (show i' + 1 ≤ n - 1 by omega),
      thomasFwd_bP a b c d n (show i' ≤ n - 1 by omega),
      thomasFwd_dP a b c d n (show i' + 1 ≤ n - 1 by omega),
      thomasFwd_dP a b c d n (show i' ≤ n - 1 by omega)]
    exact ⟨rfl, rfl⟩
  · intro i hi
    constructor
    · rw [thomasFwd, (thomasFwdAux a b c d (n - 1) i).1, if_neg (by omega)]
    · rw [thomasFwd, (thomasFwdAux a b c d (n - 1) i).2, if_neg (by omega)]

/-- Witness for C10 on the size-3 fixture system, at the mutated row
`i = 1` and the untouched row `i = 0`. -/
theorem C10_thomas_inplace_mutation_witness :
    ((1 : ℕ) ≤ 1 ∧ (1 : ℕ) < 3 ∧ ((0 : ℕ) = 0 ∨ 3 ≤ 0)) ∧
    ((thomasFwd aW bW cWt dW 3).1 1 =
      bW 1 - aW 1 / (thomasFwd aW bW cWt dW 3).1 0 * cWt 0 ∧
     (thomasFwd aW bW cWt dW 3).2 1 =
      dW 1 - aW 1 / (thomasFwd aW bW cWt dW 3).1 0 *
        (thomasFwd aW bW cWt dW 3).2 0) ∧
    ((thomasFwd aW bW cWt dW 3).1 0 = bW 0 ∧
     (thomasFwd aW bW cWt dW 3).2 0 = dW 0) :=
  ⟨⟨by decide, by decide, Or.inl rfl⟩,
   (C10_thomas_inplace_mutation aW bW cWt dW 3).1 1 (by decide) (by decide),
   (C10_thomas_inplace_mutation aW bW cWt dW 3).2 0 (Or.inl rfl)⟩

end MathModel
